import Mathlib

/-!
Shallow embedding of `Archive/pull_data.py`, a StackOverflow question/answer
collection pipeline, together with proofs about the properties its
specification states.

External collaborators (the HTTP API, the HTML parsing library, the
filesystem) are modelled as explicit parameters: an API is a function from a
page number (or an id batch) to an abstract outcome, and the HTML parser of
the cleaning library is a function returning `Option`, `none` standing for a
parse failure.  File contents are passed in and returned as values.
-/

set_option maxHeartbeats 1000000

namespace PullData

/-! ## HTML cleaner (`clean_html`) -/

/-- Whitespace predicate mirroring the characters the Python regex `\s`
matches on ASCII text: space, tab, newline, carriage return, vertical tab
and form feed. -/
def isWS (c : Char) : Bool :=
  c = ' ' || c = '\t' || c = '\n' || c = '\r' || c = Char.ofNat 11 || c = Char.ofNat 12

/-- One pass of `re.sub(r"\s+", " ", text)`: every maximal run of whitespace
characters is replaced by a single space. -/
def collapseWS : List Char → List Char
  | [] => []
  | c :: rest =>
    if isWS c then ' ' :: collapseWS (rest.dropWhile (fun d => isWS d))
    else c :: collapseWS rest
termination_by l => l.length
decreasing_by
  · simp only [List.length_cons]
    exact Nat.lt_succ_of_le (List.Sublist.length_le (List.dropWhile_sublist _))
  · simp only [List.length_cons]
    exact Nat.lt_succ_self _

/-- Python `str.strip()`: remove leading and trailing whitespace. -/
def stripWS (l : List Char) : List Char :=
  ((l.dropWhile (fun d => isWS d)).reverse.dropWhile (fun d => isWS d)).reverse

/-- Attempt to match the regex `<[^>]+>` at the start of `'<' :: rest`:
returns the remainder after the closing `>` when at least one non-`>`
character stands between the brackets, `none` when the regex fails here
(the very next character is already `>`, or no `>` follows at all). -/
def splitTag (rest : List Char) : Option (List Char) :=
  match rest.dropWhile (fun c => c ≠ '>') with
  | [] => none
  | _ :: after =>
    if (rest.takeWhile (fun c => c ≠ '>')).isEmpty then none else some after

theorem splitTag_length {rest after : List Char} (h : splitTag rest = some after) :
    after.length < rest.length := by
  unfold splitTag at h
  cases hd : rest.dropWhile (fun c => c ≠ '>') with
  | nil => rw [hd] at h; cases h
  | cons x xs =>
    rw [hd] at h
    dsimp only at h
    by_cases he : (rest.takeWhile (fun c => c ≠ '>')).isEmpty
    · rw [if_pos he] at h; cases h
    · rw [if_neg he] at h
      simp only [Option.some.injEq] at h
      subst h
      have hlen := congrArg List.length (List.takeWhile_append_dropWhile (fun c => c ≠ '>') rest)
      rw [List.length_append, hd] at hlen
      have htw : 1 ≤ (rest.takeWhile (fun c => c ≠ '>')).length := by
        cases htl : rest.takeWhile (fun c => c ≠ '>') with
        | nil => rw [htl] at he; simp at he
        | cons _ _ => simp [htl]
      simp only [List.length_cons] at hlen
      omega

/-- One pass of `re.sub(r"<[^>]+>", "", text)`: scan left to right, removing
each leftmost non-overlapping match of the tag regex. -/
def stripTags : List Char → List Char
  | [] => []
  | c :: rest =>
    if h : c = '<' ∧ (splitTag rest).isSome then
      stripTags ((splitTag rest).get h.2)
    else c :: stripTags rest
termination_by l => l.length
decreasing_by
  · simp only [List.length_cons]
    have := splitTag_length (Option.eq_some_of_isSome h.2)
    simp only [Option.some_get] at this
    omega
  · simp only [List.length_cons]
    exact Nat.lt_succ_self _

/-- Scanner deciding whether a list of characters contains a complete markup
tag, i.e. a substring of the shape `<mid>` with `mid` nonempty and free of
`>`.  At each `<` such a tag starts exactly when some `>` occurs later and
the very next character is not already `>`. -/
def hasTagB : List Char → Bool
  | [] => false
  | c :: rest =>
    (c = '<' && rest.contains '>' && !(rest.head? = some '>' : Bool)) || hasTagB rest

/-- The whole postprocessing Python applies on both paths of `clean_html`:
`re.sub(r"\s+", " ", text).strip()`. -/
def pyCollapseStrip (l : List Char) : List Char := stripWS (collapseWS l)

/-- `clean_html(html_text)`.  The first parameter models the external
`BeautifulSoup(...).get_text(separator=" ", strip=True)` call: `some t`
when structured parsing succeeds with text `t`, `none` when it raises (the
bare `except:` then falls back to the tag-stripping regex).  The `Option`
input models that the argument may be `None` in Python; `none` and the
empty string are both falsy, so `if not html_text: return ""` fires. -/
def clean_html (parser : List Char → Option (List Char)) :
    Option (List Char) → List Char
  | none => []
  | some s =>
    if s.isEmpty then []
    else
      match parser s with
      | some t => pyCollapseStrip t
      | none => pyCollapseStrip (stripTags s)

/-- The "no run of more than one consecutive whitespace character"
property. -/
def NoDoubleWS (l : List Char) : Prop :=
  l.Chain' (fun a b => isWS a = false ∨ isWS b = false)

instance (l : List Char) : Decidable (NoDoubleWS l) := by
  unfold NoDoubleWS; infer_instance

/-- Containing a complete markup tag: a substring `<mid>` with `mid`
nonempty and free of `>`. -/
def HasTag (l : List Char) : Prop :=
  ∃ pre mid post, l = pre ++ '<' :: (mid ++ '>' :: post) ∧ mid ≠ [] ∧ '>' ∉ mid

/-! ## Question records and the question fetcher (`fetch_nlp_questions`) -/

/-- A question item as returned by the API, before field extraction: every
field may be missing.  (`q.get(...)` supplies a default for all fields
except `question_id`, which the code reads with `q["question_id"]`.) -/
structure RawQuestion where
  question_id : Option Int
  title : Option String
  body : Option String
  score : Option Int
  creation_date : Option Int
  view_count : Option Int
  answer_count : Option Int
  tags : Option (List String)
  deriving Repr, DecidableEq

/-- The processed question record built by `fetch_nlp_questions`. -/
structure Question where
  question_id : Int
  title : String
  body : String
  score : Int
  creation_date : Int
  view_count : Int
  answer_count : Int
  tags : String
  deriving Repr, DecidableEq

/-- Field extraction for one item: `q["question_id"]` raises `KeyError` when
the key is absent (modelled as `Except.error`); every other field defaults
via `q.get(key, default)`; `tags` is `";".join(q.get("tags", []))`. -/
def extractQuestion (q : RawQuestion) : Except String Question :=
  match q.question_id with
  | none => .error "question_id"
  | some qid =>
    .ok { question_id := qid
          title := q.title.getD ""
          body := q.body.getD ""
          score := q.score.getD 0
          creation_date := q.creation_date.getD 0
          view_count := q.view_count.getD 0
          answer_count := q.answer_count.getD 0
          tags := String.intercalate ";" (q.tags.getD []) }

/-- Extraction over a page of items; a `KeyError` on any item propagates and
the partially built local list is discarded, as in the Python loop. -/
def extractQuestions (l : List RawQuestion) : Except String (List Question) :=
  l.mapM extractQuestion

/-- Reasons a Python call may terminate abnormally in this program. -/
inductive PyExit where
  | exn (msg : String)
  | interrupt
  deriving Repr, DecidableEq

/-- Abstract outcome of one HTTP GET on the questions endpoint:
a JSON payload (`items`, `quota_remaining`), a non-success status code, an
unexpected runtime error, or a `KeyboardInterrupt` landing during the
call. -/
inductive FetchOutcome where
  | success (items : List RawQuestion) (quota : Nat)
  | httpError (code : Nat)
  | exn (msg : String)
  | interrupt
  deriving Repr, DecidableEq

/-- `fetch_nlp_questions(page, 100, has_accepted)` over an abstract API.
On status 200 it extracts the field subset of every item (a `KeyError`
propagates); on a non-success status it logs and returns `([], 0)`. -/
def fetch_nlp_questions (api : Nat → FetchOutcome) (page : Nat) :
    Except PyExit (List Question × Nat) :=
  match api page with
  | .success items quota =>
    match extractQuestions items with
    | .ok qs => .ok (qs, quota)
    | .error e => .error (.exn e)
  | .httpError _ => .ok ([], 0)
  | .exn m => .error (.exn m)
  | .interrupt => .error .interrupt

/-- The ids of the questions a page fetch returns (empty list on an error
or an abnormal outcome). -/
def pageIds (api : Nat → FetchOutcome) (p : Nat) : List Int :=
  match fetch_nlp_questions api p with
  | .ok (qs, _) => qs.map (fun q => q.question_id)
  | .error _ => []

/-- The ids of a list of question records. -/
def idsOf (l : List Question) : List Int := l.map (fun q => q.question_id)

/-- The seen-id set covers every id of the collection (the invariant
`existing_ids ⊇ {q["question_id"] for q in all_questions}` the loop keeps). -/
def SeenCovers (all : List Question) (seen : List Int) : Prop :=
  ∀ i ∈ idsOf all, i ∈ seen

/-- Every seen id belongs to the collection (`existing_ids` is built from
`all_questions` and only grows together with it). -/
def SeenBounded (all : List Question) (seen : List Int) : Prop :=
  ∀ i ∈ seen, i ∈ idsOf all

/-- The end-of-results condition the code tests at a page `p`: the fetch of
`p` succeeds with an empty item list and a quota that does not trigger the
low-quota stop, and the confirmation probe of `p + 1` also succeeds with an
empty item list. -/
def EndCond (api : Nat → FetchOutcome) (p : Nat) : Prop :=
  ∃ quota q2, fetch_nlp_questions api p = .ok ([], quota) ∧ ¬ quota < 5 ∧
    fetch_nlp_questions api (p + 1) = .ok ([], q2)

/-! ## Question collector (`collect_all_questions`) -/

/-- The inner `for q in questions:` loop: append a record only when its id
is not in `existing_ids`, and add the id to the set.  The set is modelled
as a list with membership semantics. -/
def addNew : List Question → List Question → List Int → List Question × List Int
  | [], all, seen => (all, seen)
  | q :: rest, all, seen =>
    if q.question_id ∈ seen then addNew rest all seen
    else addNew rest (all ++ [q]) (q.question_id :: seen)

/-- How a collection run ended. -/
inductive ExitReason where
  | normal
  | lowQuota
  | endOfResults
  | interrupted
  | errored (msg : String)
  deriving Repr, DecidableEq

/-- Observable outcome of the collection `for` loop: the in-memory
collection, the seen-id set, every page a request was issued for (probe
requests included), the pages whose results were processed, the pages at
which an interval save fired, and how the loop exited. -/
structure LoopOut where
  all : List Question
  seen : List Int
  fetched : List Nat
  processed : List Nat
  saves : List Nat
  exit : ExitReason
  deriving Repr, DecidableEq

/-- The body of `collect_all_questions`: iterate pages `page, page+1, ...`
while fuel (the number of remaining pages of `range(start_page, start_page
+ max_pages)`) lasts.  Per iteration: fetch, deduplicate-append, save when
`page_num % save_interval == 0`, break when `quota < 5`, and on an empty
page probe the next page, breaking when it is empty too.  A
`KeyboardInterrupt` or any unexpected error is caught by the surrounding
`try` and ends the loop. -/
def collectLoop (api : Nat → FetchOutcome) (si : Nat) :
    Nat → Nat → List Question → List Int → LoopOut
  | 0, _, all, seen => ⟨all, seen, [], [], [], .normal⟩
  | fuel + 1, page, all, seen =>
    match fetch_nlp_questions api page with
    | .error .interrupt => ⟨all, seen, [page], [], [], .interrupted⟩
    | .error (.exn m) => ⟨all, seen, [page], [], [], .errored m⟩
    | .ok (qs, quota) =>
      let a2 := addNew qs all seen
      let sv : List Nat := if page % si = 0 then [page] else []
      if quota < 5 then ⟨a2.1, a2.2, [page], [page], sv, .lowQuota⟩
      else if qs.length = 0 then
        match fetch_nlp_questions api (page + 1) with
        | .error .interrupt => ⟨a2.1, a2.2, [page, page + 1], [page], sv, .interrupted⟩
        | .error (.exn m) => ⟨a2.1, a2.2, [page, page + 1], [page], sv, .errored m⟩
        | .ok (nqs, _) =>
          if nqs.length = 0 then ⟨a2.1, a2.2, [page, page + 1], [page], sv, .endOfResults⟩
          else
            let r := collectLoop api si fuel (page + 1) a2.1 a2.2
            ⟨r.all, r.seen, page :: (page + 1) :: r.fetched, page :: r.processed,
              sv ++ r.saves, r.exit⟩
      else
        let r := collectLoop api si fuel (page + 1) a2.1 a2.2
        ⟨r.all, r.seen, page :: r.fetched, page :: r.processed, sv ++ r.saves, r.exit⟩

/-- Observable outcome of a whole `collect_all_questions` call: the
returned collection, the request/save traces, and the single final
`save_questions` call performed after the loop on every exit path. -/
structure CollectResult where
  questions : List Question
  fetched : List Nat
  processed : List Nat
  intervalSaves : List Nat
  finalSaveCount : Nat
  savedQuestions : List Question
  exit : ExitReason
  deriving Repr, DecidableEq

/-- `collect_all_questions(max_pages, start_page, has_accepted,
save_interval, output_file)` over an abstract API.  `initial` is the
collection loaded from the output file (empty when the file is absent);
`existing_ids` is the set of its ids.  The final save always runs. -/
def collect_all_questions (api : Nat → FetchOutcome)
    (max_pages start_page si : Nat) (initial : List Question) : CollectResult :=
  let r := collectLoop api si max_pages start_page initial
    (initial.map (fun q => q.question_id))
  ⟨r.all, r.fetched, r.processed, r.saves, 1, r.all, r.exit⟩

/-! ## Answer fetcher (`fetch_answers_for_questions`) -/

/-- An answer item as returned by the API.  `answer_id` and `question_id`
are read with direct indexing in the source and are modelled as present;
the remaining fields are read with `.get` and may be missing. -/
structure RawAnswer where
  answer_id : Int
  question_id : Int
  score : Option Int
  owner_user_id : Option Int
  body : Option String
  accepted : Option Bool
  deriving Repr, DecidableEq

/-- `clean_html` applied to a `String`, as the answer/question body cleaning
call sites do. -/
def cleanStr (parser : List Char → Option (List Char)) (s : String) : String :=
  String.mk (clean_html parser (some s.data))

/-- The `answer_data` dict built per answer: `score` defaults to 0, the
user id is `answer.get("owner", {}).get("user_id", "unknown")` rendered as
text, and the body is cleaned. -/
structure AnswerData where
  answer_id : Int
  score : Int
  user_id : String
  text : String
  deriving Repr, DecidableEq

def toAnswerData (parser : List Char → Option (List Char)) (a : RawAnswer) : AnswerData :=
  { answer_id := a.answer_id
    score := a.score.getD 0
    user_id := match a.owner_user_id with
      | some i => toString i
      | none => "unknown"
    text := cleanStr parser (a.body.getD "") }

/-- The per-question entry of the `all_answers` dict. -/
structure QEntry where
  accepted : List AnswerData
  others : List AnswerData
  deriving Repr, DecidableEq

/-- The `all_answers` dict, modelled as an insertion-ordered association
list. -/
abbrev AMap := List (Int × QEntry)

def lookupA : AMap → Int → Option QEntry
  | [], _ => none
  | (k, e) :: rest, q => if k = q then some e else lookupA rest q

/-- Replace the entry of a present key, keeping order. -/
def setA : AMap → Int → QEntry → AMap
  | [], _, _ => []
  | (k, e) :: rest, q, v => if k = q then (k, v) :: rest else (k, e) :: setA rest q v

/-- Append a processed answer to the `accepted` or the `others` bucket of
an entry, according to `answer.get("is_accepted", False)`. -/
def bucketAdd (d : AnswerData) (acc : Bool) (e : QEntry) : QEntry :=
  if acc then ⟨e.accepted ++ [d], e.others⟩ else ⟨e.accepted, e.others ++ [d]⟩

/-- Process one answer item: create the entry on first sight of the
question id, then append the processed answer to the appropriate
bucket. -/
def addAnswer (parser : List Char → Option (List Char)) (m : AMap) (a : RawAnswer) : AMap :=
  let m1 := if (lookupA m a.question_id).isSome then m
            else m ++ [(a.question_id, ⟨[], []⟩)]
  let e := (lookupA m1 a.question_id).getD ⟨[], []⟩
  setA m1 a.question_id (bucketAdd (toAnswerData parser a) (a.accepted.getD false) e)

/-- The `for answer in answers:` grouping loop of one batch. -/
def groupAnswers (parser : List Char → Option (List Char)) (m : AMap)
    (l : List RawAnswer) : AMap :=
  l.foldl (addAnswer parser) m

/-- The processed accepted answers of question `q` among a batch response,
in response order. -/
def accOf (parser : List Char → Option (List Char)) (l : List RawAnswer) (q : Int) :
    List AnswerData :=
  (l.filter (fun a => a.question_id == q && a.accepted.getD false)).map (toAnswerData parser)

/-- The processed non-accepted answers of question `q` among a batch
response, in response order. -/
def othOf (parser : List Char → Option (List Char)) (l : List RawAnswer) (q : Int) :
    List AnswerData :=
  (l.filter (fun a => a.question_id == q && !(a.accepted.getD false))).map (toAnswerData parser)

/-- Stable descending insertion: place `a` before the first element whose
score does not exceed it.  Together with `sortDesc` this computes exactly
the list Python's stable `list.sort(key=score, reverse=True)` produces. -/
def sortInsert (a : AnswerData) : List AnswerData → List AnswerData
  | [] => [a]
  | b :: rest => if b.score ≤ a.score then a :: b :: rest else b :: sortInsert a rest

def sortDesc (l : List AnswerData) : List AnswerData := l.foldr sortInsert []

/-- The final pass of `fetch_answers_for_questions`: sort `others` by score
descending and truncate to `top_n`. -/
def sortTrunc (top_n : Nat) (e : QEntry) : QEntry :=
  ⟨e.accepted, (sortDesc e.others).take top_n⟩

def mapValsSortTrunc (top_n : Nat) (m : AMap) : AMap :=
  m.map (fun kv => (kv.1, sortTrunc top_n kv.2))

/-- Abstract outcome of one HTTP GET on the batched answers endpoint. -/
inductive AnsOutcome where
  | success (items : List RawAnswer) (quota : Nat)
  | httpError (code : Nat)
  deriving Repr, DecidableEq

/-- The batch loop of `fetch_answers_for_questions`: slice the ids into
groups of at most 100, issue one request per group, merge successful
responses into the accumulator, stop after a batch whose remaining quota is
below 100, and on a non-success status log and continue with the next
batch. -/
def fetchAnswersLoop (parser : List Char → Option (List Char))
    (api : List Int → AnsOutcome) : List Int → AMap → AMap
  | [], acc => acc
  | i :: rest, acc =>
    let batch := (i :: rest).take 100
    let remaining := (i :: rest).drop 100
    match api batch with
    | .success items quota =>
      let acc2 := groupAnswers parser acc items
      if quota < 100 then acc2 else fetchAnswersLoop parser api remaining acc2
    | .httpError _ => fetchAnswersLoop parser api remaining acc
termination_by ids _ => ids.length
decreasing_by
  all_goals simp only [List.length_drop, List.length_cons]; omega

/-- `fetch_answers_for_questions(question_ids, top_n)` over an abstract
answers API. -/
def fetch_answers_for_questions (parser : List Char → Option (List Char))
    (api : List Int → AnsOutcome) (question_ids : List Int) (top_n : Nat) : AMap :=
  if question_ids.isEmpty then []
  else mapValsSortTrunc top_n (fetchAnswersLoop parser api question_ids [])

/-! ## QA joiner (`process_questions_with_answers`) -/

/-- `f"[User {user_id} | Score: {score}]: {text}"`. -/
def fmtAnswer (a : AnswerData) : String :=
  "[User " ++ a.user_id ++ " | Score: " ++ toString a.score ++ "]: " ++ a.text

/-- One CSV row of the output table; the eleven fixed columns. -/
structure Row where
  question_id : Int
  title : String
  body : String
  score : Int
  view_count : Int
  answer_count : Int
  tags : String
  accepted_answer : String
  top_answer_1 : String
  top_answer_2 : String
  top_answer_3 : String
  deriving Repr, DecidableEq

/-- Build the row for one question: clean the body, format the first
accepted answer when one exists, and fill `top_answer_1..3` from
`others[:3]`; unset columns keep their initial empty string. -/
def buildRow (parser : List Char → Option (List Char)) (answersData : AMap)
    (q : Question) : Row :=
  let base : Row :=
    { question_id := q.question_id
      title := q.title
      body := cleanStr parser q.body
      score := q.score
      view_count := q.view_count
      answer_count := q.answer_count
      tags := q.tags
      accepted_answer := ""
      top_answer_1 := ""
      top_answer_2 := ""
      top_answer_3 := "" }
  match lookupA answersData q.question_id with
  | none => base
  | some e =>
    let acc := match e.accepted with
      | a :: _ => fmtAnswer a
      | [] => ""
    let tops := (e.others.take 3).map fmtAnswer
    { base with
      accepted_answer := acc
      top_answer_1 := tops.getD 0 ""
      top_answer_2 := tops.getD 1 ""
      top_answer_3 := tops.getD 2 "" }

/-- How many of the three `top_answer_k` columns of a row are filled. -/
def filledTops (r : Row) : Nat :=
  (if r.top_answer_1 = "" then 0 else 1) + (if r.top_answer_2 = "" then 0 else 1) +
    (if r.top_answer_3 = "" then 0 else 1)

/-- The batching loop of the joiner: slice `to_process` into groups of
`batch_size`, fetch the answers of each group, and build one row per
question of the group.  `batch_size = 0` makes Python's
`range(0, n, 0)` raise; the model returns no rows there and every theorem
assumes `0 < batch_size`. -/
def chunkRows (parser : List Char → Option (List Char)) (api : List Int → AnsOutcome)
    (top_n batch_size : Nat) : List Question → List Row
  | [] => []
  | q :: rest =>
    if batch_size = 0 then []
    else
      let batch := (q :: rest).take batch_size
      let answers := fetch_answers_for_questions parser api
        (batch.map (fun x => x.question_id)) top_n
      batch.map (buildRow parser answers) ++
        chunkRows parser api top_n batch_size ((q :: rest).drop batch_size)
termination_by qs => qs.length
decreasing_by
  all_goals simp only [List.length_drop, List.length_cons]; omega

/-- `process_questions_with_answers(questions_file, output_file,
batch_size, top_n)`, returning the final content of the output table.
`existing` is the readable content of the output file (`none` when absent
or unreadable, in which case `processed_ids` stays empty).  When there is
nothing to process no write happens and the file keeps its old content;
otherwise the last write wins: old rows are kept in front exactly when the
file existed with a nonempty processed-id set. -/
def process_questions_with_answers (parser : List Char → Option (List Char))
    (api : List Int → AnsOutcome) (questions : List Question)
    (existing : Option (List Row)) (batch_size top_n : Nat) : List Row :=
  if questions.isEmpty then existing.getD []
  else
    let processedIds := (existing.getD []).map (fun r => r.question_id)
    let toProcess := questions.filter (fun q => !(processedIds.contains q.question_id))
    if toProcess.isEmpty then existing.getD []
    else
      let rows := chunkRows parser api top_n batch_size toProcess
      match existing with
      | some ex => if ex.isEmpty then rows else ex ++ rows
      | none => rows

/-! ## Concrete fixtures used by counterexamples and witnesses -/

/-- A sample raw question with id 1 and every optional field present. -/
def rq1 : RawQuestion :=
  ⟨some 1, some "t", some "b", some 3, some 7, some 9, some 2, some ["nlp"]⟩

/-- The processed form of `rq1`. -/
def q1 : Question := ⟨1, "t", "b", 3, 7, 9, 2, "nlp"⟩

/-- A raw question with the `question_id` key absent. -/
def rqNoId : RawQuestion :=
  ⟨none, some "t", none, none, none, none, none, none⟩

/-- A parser that always fails, so `clean_html` always takes its regex
fallback. -/
def parser0 : List Char → Option (List Char) := fun _ => none

/-- API where page 11 answers with a non-success status and every other
page has plenty of results and quota. -/
def apiHttpErr : Nat → FetchOutcome := fun p =>
  if p = 11 then .httpError 500 else .success [rq1] 1000

/-- API whose pages 1 and 2 both return the same single question (page 2
hence yields zero new questions) and whose later pages are empty. -/
def apiDupThenEmpty : Nat → FetchOutcome := fun p =>
  if p = 1 then .success [rq1] 1000
  else if p = 2 then .success [rq1] 1000
  else .success [] 1000

/-- API returning one fixed question on every page, with high quota. -/
def apiSteady : Nat → FetchOutcome := fun _ => .success [rq1] 1000

/-- API on which every fetch is interrupted by the user. -/
def apiInterrupt : Nat → FetchOutcome := fun _ => .interrupt

/-- API on which every fetch raises an unexpected runtime error. -/
def apiBoom : Nat → FetchOutcome := fun _ => .exn "boom"

/-- Four answers for question 7, one accepted, three not. -/
def ansA : RawAnswer := ⟨101, 7, some 5, some 42, some "a", some true⟩
def ansB : RawAnswer := ⟨102, 7, some 9, some 43, some "b", some false⟩
def ansC : RawAnswer := ⟨103, 7, some 1, none, some "c", some false⟩
def ansD : RawAnswer := ⟨104, 7, some 4, some 44, some "d", none⟩

/-- A fifth non-accepted answer for question 7. -/
def ansE : RawAnswer := ⟨105, 7, some 2, some 45, some "e", some false⟩

/-- Answers API returning the five answers of question 7 on any batch. -/
def ansApi7 : List Int → AnsOutcome := fun _ => .success [ansA, ansB, ansC, ansD, ansE] 500

/-- The question the answer fixtures belong to. -/
def q7 : Question := ⟨7, "t7", "b7", 1, 1, 1, 4, "nlp"⟩

/-- A question with id 2 and a question with id 3, for the joiner
fixtures. -/
def q2 : Question := ⟨2, "t2", "b2", 0, 0, 0, 0, ""⟩
def q3 : Question := ⟨3, "t3", "b3", 0, 0, 0, 0, ""⟩

/-- An existing output row with a given question id and empty text
columns. -/
def exRow (i : Int) : Row := ⟨i, "", "", 0, 0, 0, "", "", "", "", ""⟩

/-! ## Lemmas: whitespace collapsing -/

theorem head_dropWhile_false (p : Char → Bool) (l : List Char) :
    ∀ d ∈ (l.dropWhile p).head?, p d = false := by
  induction l with
  | nil => simp
  | cons c rest ih =>
    by_cases hc : p c
    · simpa [List.dropWhile_cons, hc] using ih
    · simp only [List.dropWhile_cons, hc, if_neg, Bool.false_eq_true, ite_false,
        List.head?_cons, Option.mem_def, Option.some.injEq]
      intro d hd
      subst hd
      simpa using hc

theorem head_collapseWS_not_ws (l : List Char) :
    ∀ d ∈ (collapseWS l).head?, isWS d = false ∨ d = ' ' := by
  induction l using collapseWS.induct with
  | case1 => simp [collapseWS]
  | case2 c rest h ih =>
    rw [collapseWS, if_pos h]
    simp
  | case3 c rest h ih =>
    rw [collapseWS, if_neg h]
    intro d hd
    simp only [List.head?_cons, Option.mem_def, Option.some.injEq] at hd
    subst hd
    exact Or.inl (by simpa using h)

theorem collapseWS_chain (l : List Char) : NoDoubleWS (collapseWS l) := by
  unfold NoDoubleWS
  induction l using collapseWS.induct with
  | case1 => simp [collapseWS]
  | case2 c rest h ih =>
    rw [collapseWS, if_pos h]
    rw [List.chain'_cons']
    refine ⟨?_, ih⟩
    intro y hy
    have hhd := head_dropWhile_false (fun d => isWS d) rest
    have := head_collapseWS_not_ws (rest.dropWhile fun d => isWS d) y hy
    rcases this with hy2 | hy2
    · exact Or.inr hy2
    · subst hy2
      cases hcoll : (rest.dropWhile fun d => isWS d) with
      | nil =>
        rw [hcoll] at hy
        simp [collapseWS] at hy
      | cons d t =>
        have hd : isWS d = false := by
          have := hhd d
          rw [hcoll] at this
          exact this (by simp)
        rw [hcoll, collapseWS, if_neg (by simp [hd])] at hy
        simp only [List.head?_cons, Option.mem_def, Option.some.injEq] at hy
        subst hy
        exact Or.inr hd
  | case3 c rest h ih =>
    rw [collapseWS, if_neg h]
    rw [List.chain'_cons']
    exact ⟨fun y _ => Or.inl (by simpa using h), ih⟩

theorem chain'_dropWhile {R : Char → Char → Prop} {l : List Char} (p : Char → Bool)
    (h : l.Chain' R) : (l.dropWhile p).Chain' R := by
  induction l with
  | nil => simp
  | cons c rest ih =>
    by_cases hc : p c
    · rw [List.dropWhile_cons_of_pos hc]
      exact ih (List.Chain'.tail h)
    · rwa [List.dropWhile_cons_of_neg hc]

theorem noDoubleWS_reverse {l : List Char} (h : NoDoubleWS l) : NoDoubleWS l.reverse := by
  unfold NoDoubleWS at h ⊢
  rw [List.chain'_reverse]
  exact h.imp (fun a b hab => hab.symm)

theorem stripWS_noDouble {l : List Char} (h : NoDoubleWS l) : NoDoubleWS (stripWS l) := by
  unfold stripWS
  apply noDoubleWS_reverse
  exact chain'_dropWhile _ (noDoubleWS_reverse (chain'_dropWhile _ h))

theorem pyCollapseStrip_noDouble (l : List Char) : NoDoubleWS (pyCollapseStrip l) :=
  stripWS_noDouble (collapseWS_chain l)


theorem hasTagB_cons_true {c : Char} {l : List Char} :
    hasTagB (c :: l) = true ↔ (c = '<' ∧ '>' ∈ l ∧ l.head? ≠ some '>') ∨ hasTagB l = true := by
  simp [hasTagB, and_assoc]

theorem hasTagB_cons_false {c : Char} {l : List Char} :
    hasTagB (c :: l) = false ↔
      ¬(c = '<' ∧ '>' ∈ l ∧ l.head? ≠ some '>') ∧ hasTagB l = false := by
  rw [← Bool.not_eq_true, hasTagB_cons_true]
  rw [← Bool.not_eq_true]
  tauto

theorem hasTagB_tail {c : Char} {l : List Char} (h : hasTagB (c :: l) = false) :
    hasTagB l = false := (hasTagB_cons_false.mp h).2

theorem hasTagB_dropWhile (p : Char → Bool) {l : List Char} (h : hasTagB l = false) :
    hasTagB (l.dropWhile p) = false := by
  induction l with
  | nil => simpa using h
  | cons c rest ih =>
    by_cases hc : p c
    · rw [List.dropWhile_cons_of_pos hc]
      exact ih (hasTagB_tail h)
    · rwa [List.dropWhile_cons_of_neg hc]

theorem hasTagB_append_of_left {a : List Char} (b : List Char) (h : hasTagB a = true) :
    hasTagB (a ++ b) = true := by
  induction a with
  | nil => simp [hasTagB] at h
  | cons c rest ih =>
    rw [List.cons_append, hasTagB_cons_true]
    rcases hasTagB_cons_true.mp h with ⟨hc, hmem, hhd⟩ | htl
    · left
      refine ⟨hc, List.mem_append_left _ hmem, ?_⟩
      cases rest with
      | nil => simp at hmem
      | cons d t => simpa using hhd
    · exact Or.inr (ih htl)

theorem hasTagB_append_of_right (a : List Char) {b : List Char} (h : hasTagB b = true) :
    hasTagB (a ++ b) = true := by
  induction a with
  | nil => simpa using h
  | cons c rest ih =>
    rw [List.cons_append, hasTagB_cons_true]
    exact Or.inr ih

theorem hasTag_of_concrete (c0 : Char) (mid post : List Char) (hm : mid ≠ [])
    (hgt : '>' ∉ mid) (hc : c0 = '<') :
    hasTagB (c0 :: (mid ++ '>' :: post)) = true := by
  rw [hasTagB_cons_true]
  left
  refine ⟨hc, List.mem_append_right _ (by simp), ?_⟩
  cases mid with
  | nil => exact absurd rfl hm
  | cons m0 m' =>
    simp only [List.cons_append, List.head?_cons, ne_eq, Option.some.injEq]
    intro hbad
    exact hgt (by simp [hbad])

theorem dropWhile_ne_gt {l : List Char} (h : '>' ∈ l) :
    ∃ post, l.dropWhile (fun x => x ≠ '>') = '>' :: post := by
  induction l with
  | nil => simp at h
  | cons c rest ih =>
    by_cases hc : c = '>'
    · subst hc
      exact ⟨rest, by simp [List.dropWhile_cons]⟩
    · have : '>' ∈ rest := by
        rcases List.mem_cons.mp h with h1 | h1
        · exact absurd h1.symm hc
        · exact h1
      obtain ⟨post, hp⟩ := ih this
      refine ⟨post, ?_⟩
      rw [List.dropWhile_cons_of_pos (by simpa using hc)]
      exact hp

theorem hasTagB_iff_HasTag (l : List Char) : hasTagB l = true ↔ HasTag l := by
  constructor
  · intro h
    induction l with
    | nil => simp [hasTagB] at h
    | cons c rest ih =>
      rcases hasTagB_cons_true.mp h with ⟨hc, hmem, hhd⟩ | htl
      · obtain ⟨post, hp⟩ := dropWhile_ne_gt hmem
        refine ⟨[], rest.takeWhile (fun x => x ≠ '>'), post, ?_, ?_, ?_⟩
        · subst hc
          simp only [List.nil_append]
          rw [← hp, List.takeWhile_append_dropWhile]
        · intro hnil
          cases rest with
          | nil => simp at hmem
          | cons r0 r' =>
            have hr0 : r0 ≠ '>' := by simpa using hhd
            rw [List.takeWhile_cons_of_pos (by simpa using hr0)] at hnil
            cases hnil
        · intro hbad
          have := List.mem_takeWhile_imp hbad
          simp at this
      · obtain ⟨pre, mid, post, hl, hm, hgt⟩ := ih htl
        exact ⟨c :: pre, mid, post, by simp [hl], hm, hgt⟩
  · rintro ⟨pre, mid, post, hl, hm, hgt⟩
    subst hl
    exact hasTagB_append_of_right pre (hasTag_of_concrete '<' mid post hm hgt rfl)


theorem splitTag_none_cases {rest : List Char} (h : splitTag rest = none) :
    rest = [] ∨ rest.head? = some '>' ∨ '>' ∉ rest := by
  unfold splitTag at h
  cases hd : rest.dropWhile (fun c => c ≠ '>') with
  | nil =>
    right; right
    intro hmem
    obtain ⟨post, hp⟩ := dropWhile_ne_gt hmem
    rw [hp] at hd
    cases hd
  | cons x xs =>
    rw [hd] at h
    dsimp only at h
    by_cases he : (rest.takeWhile (fun c => c ≠ '>')).isEmpty
    · cases rest with
      | nil => exact Or.inl rfl
      | cons r0 r' =>
        right; left
        by_cases hr0 : r0 = '>'
        · simp [hr0]
        · rw [List.takeWhile_cons_of_pos (by simpa using hr0)] at he
          simp at he
    · rw [if_neg he] at h
      cases h

theorem splitTag_suffix {rest after : List Char} (h : splitTag rest = some after) :
    ∃ s x, rest = s ++ x :: after := by
  unfold splitTag at h
  cases hd : rest.dropWhile (fun c => c ≠ '>') with
  | nil => rw [hd] at h; cases h
  | cons x xs =>
    rw [hd] at h
    dsimp only at h
    by_cases he : (rest.takeWhile (fun c => c ≠ '>')).isEmpty
    · rw [if_pos he] at h; cases h
    · rw [if_neg he] at h
      simp only [Option.some.injEq] at h
      subst h
      exact ⟨rest.takeWhile (fun c => c ≠ '>'), x, by rw [← hd, List.takeWhile_append_dropWhile]⟩

theorem stripTags_sublist (l : List Char) : List.Sublist (stripTags l) l := by
  induction l using stripTags.induct with
  | case1 => simp [stripTags]
  | case2 c rest h ih =>
    rw [stripTags, dif_pos h]
    obtain ⟨s, x, hsx⟩ := splitTag_suffix (Option.eq_some_of_isSome h.2)
    have h1 : List.Sublist ((splitTag rest).get h.2) rest := by
      conv_rhs => rw [hsx]
      exact (List.sublist_cons_self x _).trans (List.sublist_append_right s _)
    exact (ih.trans h1).trans (List.sublist_cons_self c rest)
  | case3 c rest h ih =>
    rw [stripTags, dif_neg h]
    exact List.Sublist.cons₂ c ih

theorem stripTags_tagfree (l : List Char) : hasTagB (stripTags l) = false := by
  induction l using stripTags.induct with
  | case1 => simp [stripTags, hasTagB]
  | case2 c rest h ih => rw [stripTags, dif_pos h]; exact ih
  | case3 c rest h ih =>
    rw [stripTags, dif_neg h]
    rw [hasTagB_cons_false]
    refine ⟨?_, ih⟩
    rintro ⟨hc, hmem, hhd⟩
    rcases not_and.mp h hc |> fun hn => (Option.not_isSome_iff_eq_none.mp hn) with hnone
    rcases splitTag_none_cases hnone with hnil | hgt | hno
    · subst hnil
      simp [stripTags] at hmem
    · cases rest with
      | nil => simp at hgt
      | cons r0 r' =>
        simp only [List.head?_cons, Option.some.injEq] at hgt
        subst hgt
        have hne : ¬('>' = '<' ∧ (splitTag r').isSome) := by
          rintro ⟨habs, -⟩
          cases habs
        rw [stripTags, dif_neg hne] at hhd
        simp at hhd
    · exact hno ((stripTags_sublist rest).mem hmem)

theorem mem_collapseWS {c : Char} {l : List Char} (h : c ∈ collapseWS l) :
    c = ' ' ∨ c ∈ l := by
  induction l using collapseWS.induct with
  | case1 => simp [collapseWS] at h
  | case2 d rest hws ih =>
    rw [collapseWS, if_pos hws] at h
    rcases List.mem_cons.mp h with h1 | h1
    · exact Or.inl h1
    · rcases ih h1 with h2 | h2
      · exact Or.inl h2
      · exact Or.inr (List.mem_cons_of_mem d ((List.dropWhile_sublist _).mem h2))
  | case3 d rest hws ih =>
    rw [collapseWS, if_neg hws] at h
    rcases List.mem_cons.mp h with h1 | h1
    · exact Or.inr (h1 ▸ List.mem_cons_self d rest)
    · rcases ih h1 with h2 | h2
      · exact Or.inl h2
      · exact Or.inr (List.mem_cons_of_mem d h2)

theorem collapseWS_tagfree {l : List Char} (h : hasTagB l = false) :
    hasTagB (collapseWS l) = false := by
  induction l using collapseWS.induct with
  | case1 => simpa [collapseWS] using h
  | case2 c rest hws ih =>
    rw [collapseWS, if_pos hws]
    rw [hasTagB_cons_false]
    refine ⟨?_, ih (hasTagB_dropWhile _ (hasTagB_tail h))⟩
    rintro ⟨hsp, -, -⟩
    exact absurd hsp (by decide)
  | case3 c rest hws ih =>
    rw [collapseWS, if_neg hws]
    rw [hasTagB_cons_false]
    have hrest := hasTagB_tail h
    refine ⟨?_, ih hrest⟩
    rintro ⟨hc, hmem, hhd⟩
    subst hc
    have hcond := (hasTagB_cons_false.mp h).1
    by_cases hg : '>' ∈ rest
    · have hhd2 : rest.head? = some '>' := by
        by_contra hne
        exact hcond ⟨rfl, hg, hne⟩
      cases rest with
      | nil => simp at hhd2
      | cons r0 r' =>
        simp only [List.head?_cons, Option.some.injEq] at hhd2
        subst hhd2
        have hcoll : collapseWS ('>' :: r') = '>' :: collapseWS r' := by
          rw [collapseWS]
          simp [isWS]
        rw [hcoll] at hhd
        simp at hhd
    · refine absurd (mem_collapseWS hmem) ?_
      rintro (h1 | h1)
      · exact absurd h1 (by decide)
      · exact hg h1

theorem hasTagB_of_append_left {a b : List Char} (h : hasTagB (a ++ b) = false) :
    hasTagB a = false := by
  by_contra hx
  rw [Bool.not_eq_false] at hx
  rw [hasTagB_append_of_left b hx] at h
  cases h

theorem stripWS_tagfree {l : List Char} (h : hasTagB l = false) :
    hasTagB (stripWS l) = false := by
  unfold stripWS
  have h1 : hasTagB (l.dropWhile (fun d => isWS d)) = false := hasTagB_dropWhile _ h
  have hdec :
      ((l.dropWhile (fun d => isWS d)).reverse.dropWhile (fun d => isWS d)).reverse ++
        ((l.dropWhile (fun d => isWS d)).reverse.takeWhile (fun d => isWS d)).reverse =
        l.dropWhile (fun d => isWS d) := by
    rw [← List.reverse_append, List.takeWhile_append_dropWhile, List.reverse_reverse]
  rw [← hdec] at h1
  exact hasTagB_of_append_left h1

theorem pyCollapseStrip_tagfree {l : List Char} (h : hasTagB l = false) :
    hasTagB (pyCollapseStrip l) = false :=
  stripWS_tagfree (collapseWS_tagfree h)

/-- C7: for every input, the output of the HTML cleaner contains no markup
tag and no run of more than one consecutive whitespace character; empty or
absent input yields empty output.  The external structured parser is
assumed to return tag-free text when it succeeds; on its failure (modelled
by `none`, covering any exception it may raise) the regex fallback path is
taken, so no exception escapes the cleaner. -/
theorem clean_html_ok (parser : List Char → Option (List Char))
    (hp : ∀ s t, parser s = some t → hasTagB t = false) (input : Option (List Char)) :
    ¬ HasTag (clean_html parser input) ∧ NoDoubleWS (clean_html parser input) ∧
      (∀ s, input = some s → s = [] → clean_html parser input = []) ∧
      clean_html parser none = [] := by
  have hmain : ¬ HasTag (clean_html parser input) ∧ NoDoubleWS (clean_html parser input) := by
    cases input with
    | none =>
      constructor
      · rw [← hasTagB_iff_HasTag]
        simp [clean_html, hasTagB]
      · simp [clean_html, NoDoubleWS]
    | some s =>
      by_cases hs : s.isEmpty
      · constructor
        · rw [← hasTagB_iff_HasTag]
          simp [clean_html, hs, hasTagB]
        · simp [clean_html, hs, NoDoubleWS]
      · cases hps : parser s with
        | some t =>
          have hout : clean_html parser (some s) = pyCollapseStrip t := by
            simp [clean_html, hs, hps]
          rw [hout]
          constructor
          · rw [← hasTagB_iff_HasTag]
            simp [pyCollapseStrip_tagfree (hp s t hps)]
          · exact pyCollapseStrip_noDouble t
        | none =>
          have hout : clean_html parser (some s) = pyCollapseStrip (stripTags s) := by
            simp [clean_html, hs, hps]
          rw [hout]
          constructor
          · rw [← hasTagB_iff_HasTag]
            simp [pyCollapseStrip_tagfree (stripTags_tagfree s)]
          · exact pyCollapseStrip_noDouble (stripTags s)
  refine ⟨hmain.1, hmain.2, ?_, rfl⟩
  rintro s rfl rfl
  simp [clean_html]

/-- Witness for `clean_html_ok` at a concrete failing parser and input. -/
theorem clean_html_ok_w :
    (∀ s t, parser0 s = some t → hasTagB t = false) ∧
      (¬ HasTag (clean_html parser0 (some ('<' :: 'p' :: '>' :: 'a' :: ' ' :: ' ' :: 'b' :: []))) ∧
        NoDoubleWS (clean_html parser0 (some ('<' :: 'p' :: '>' :: 'a' :: ' ' :: ' ' :: 'b' :: []))) ∧
        (∀ s, some ('<' :: 'p' :: '>' :: 'a' :: ' ' :: ' ' :: 'b' :: []) = some s → s = [] →
          clean_html parser0 (some ('<' :: 'p' :: '>' :: 'a' :: ' ' :: ' ' :: 'b' :: [])) = []) ∧
        clean_html parser0 none = []) :=
  ⟨fun _ _ h => Option.noConfusion h,
   clean_html_ok parser0 (fun _ _ h => Option.noConfusion h) _⟩


theorem pageIds_ok {api : Nat → FetchOutcome} {p : Nat} {qs : List Question} {quota : Nat}
    (hf : fetch_nlp_questions api p = .ok (qs, quota)) : pageIds api p = idsOf qs := by
  simp [pageIds, hf, idsOf]

theorem collectLoop_ctl (api : Nat → FetchOutcome) (si : Nat) :
    ∀ (fuel page : Nat) (all all2 : List Question) (seen seen2 : List Int),
      (collectLoop api si fuel page all seen).fetched =
        (collectLoop api si fuel page all2 seen2).fetched ∧
      (collectLoop api si fuel page all seen).processed =
        (collectLoop api si fuel page all2 seen2).processed ∧
      (collectLoop api si fuel page all seen).saves =
        (collectLoop api si fuel page all2 seen2).saves ∧
      (collectLoop api si fuel page all seen).exit =
        (collectLoop api si fuel page all2 seen2).exit := by
  intro fuel
  induction fuel with
  | zero => intro page all all2 seen seen2; simp [collectLoop]
  | succ n ih =>
    intro page all all2 seen seen2
    cases hf : fetch_nlp_questions api page with
    | error e =>
      cases e with
      | interrupt => simp [collectLoop, hf]
      | exn m => simp [collectLoop, hf]
    | ok pr =>
      obtain ⟨qs, quota⟩ := pr
      by_cases h5 : quota < 5
      · simp [collectLoop, hf, h5]
      · by_cases he : qs = []
        · subst he
          cases hf2 : fetch_nlp_questions api (page + 1) with
          | error e2 =>
            cases e2 with
            | interrupt => simp [collectLoop, hf, h5, hf2, addNew]
            | exn m => simp [collectLoop, hf, h5, hf2, addNew]
          | ok pr2 =>
            obtain ⟨nqs, q2⟩ := pr2
            by_cases he2 : nqs = []
            · subst he2
              simp [collectLoop, hf, h5, hf2, addNew]
            · obtain ⟨i1, i2, i3, i4⟩ := ih (page + 1) all all2 seen seen2
              simp only [collectLoop, hf, h5, hf2, addNew]
              simp [he2, i1, i2, i3, i4]
        · obtain ⟨i1, i2, i3, i4⟩ := ih (page + 1) (addNew qs all seen).1
            (addNew qs all2 seen2).1 (addNew qs all seen).2 (addNew qs all2 seen2).2
          simp only [collectLoop, hf]
          simp [h5, he, i1, i2, i3, i4]


theorem addNew_append : ∀ (qs all : List Question) (seen : List Int),
    ∃ t, (addNew qs all seen).1 = all ++ t ∧ ∀ q ∈ t, q ∈ qs := by
  intro qs
  induction qs with
  | nil => intro all seen; exact ⟨[], by simp [addNew], by simp⟩
  | cons q rest ih =>
    intro all seen
    by_cases hq : q.question_id ∈ seen
    · obtain ⟨t, ht1, ht2⟩ := ih all seen
      exact ⟨t, by simp [addNew, hq, ht1], fun x hx => List.mem_cons_of_mem q (ht2 x hx)⟩
    · obtain ⟨t, ht1, ht2⟩ := ih (all ++ [q]) (q.question_id :: seen)
      refine ⟨q :: t, ?_, ?_⟩
      · simp only [addNew, hq, if_neg, ite_false]
        rw [ht1]
        simp
      · intro x hx
        rcases List.mem_cons.mp hx with h1 | h1
        · exact h1 ▸ List.mem_cons_self q rest
        · exact List.mem_cons_of_mem q (ht2 x h1)

theorem addNew_absorb : ∀ (qs all : List Question) (seen : List Int),
    (∀ q ∈ qs, q.question_id ∈ seen) → addNew qs all seen = (all, seen) := by
  intro qs
  induction qs with
  | nil => intro all seen _; rfl
  | cons q rest ih =>
    intro all seen h
    have hq : q.question_id ∈ seen := h q (List.mem_cons_self q rest)
    simp only [addNew, hq, ite_true]
    exact ih all seen (fun x hx => h x (List.mem_cons_of_mem q hx))

theorem addNew_seen_mono : ∀ (qs all : List Question) (seen : List Int) (i : Int),
    i ∈ seen → i ∈ (addNew qs all seen).2 := by
  intro qs
  induction qs with
  | nil => intro all seen i hi; exact hi
  | cons q rest ih =>
    intro all seen i hi
    by_cases hq : q.question_id ∈ seen
    · simp only [addNew, hq, ite_true]
      exact ih all seen i hi
    · simp only [addNew, hq, if_neg, ite_false]
      exact ih _ _ i (List.mem_cons_of_mem _ hi)

theorem addNew_covers_qs : ∀ (qs all : List Question) (seen : List Int) (q : Question),
    q ∈ qs → q.question_id ∈ (addNew qs all seen).2 := by
  intro qs
  induction qs with
  | nil => intro all seen q hq; simp at hq
  | cons q0 rest ih =>
    intro all seen q hq
    rcases List.mem_cons.mp hq with h1 | h1
    · subst h1
      by_cases hq0 : q.question_id ∈ seen
      · simp only [addNew, hq0, ite_true]
        exact addNew_seen_mono rest all seen _ hq0
      · simp only [addNew, hq0, if_neg, ite_false]
        exact addNew_seen_mono rest _ _ _ (List.mem_cons_self _ _)
    · by_cases hq0 : q0.question_id ∈ seen
      · simp only [addNew, hq0, ite_true]
        exact ih all seen q h1
      · simp only [addNew, hq0, if_neg, ite_false]
        exact ih _ _ q h1

theorem addNew_inv1 : ∀ (qs all : List Question) (seen : List Int),
    SeenCovers all seen →
      SeenCovers (addNew qs all seen).1 (addNew qs all seen).2 := by
  intro qs
  induction qs with
  | nil => intro all seen h; exact h
  | cons q rest ih =>
    intro all seen h
    by_cases hq : q.question_id ∈ seen
    · simp only [addNew, hq, ite_true]
      exact ih all seen h
    · simp only [addNew, hq, if_neg, ite_false]
      apply ih
      intro i hi
      unfold idsOf at hi
      rw [List.map_append] at hi
      rcases List.mem_append.mp hi with h1 | h1
      · exact List.mem_cons_of_mem _ (h i h1)
      · simp at h1
        simp [h1]

theorem addNew_inv2 : ∀ (qs all : List Question) (seen : List Int),
    SeenBounded all seen →
      SeenBounded (addNew qs all seen).1 (addNew qs all seen).2 := by
  intro qs
  induction qs with
  | nil => intro all seen h; exact h
  | cons q rest ih =>
    intro all seen h
    by_cases hq : q.question_id ∈ seen
    · simp only [addNew, hq, ite_true]
      exact ih all seen h
    · simp only [addNew, hq, if_neg, ite_false]
      apply ih
      intro i hi
      rcases List.mem_cons.mp hi with h1 | h1
      · subst h1
        unfold idsOf
        rw [List.map_append]
        simp
      · unfold idsOf
        rw [List.map_append]
        exact List.mem_append_left _ (h i h1)

theorem addNew_nodup : ∀ (qs all : List Question) (seen : List Int),
    SeenCovers all seen → (idsOf all).Nodup →
      (idsOf (addNew qs all seen).1).Nodup := by
  intro qs
  induction qs with
  | nil => intro all seen _ h; exact h
  | cons q rest ih =>
    intro all seen hc hn
    by_cases hq : q.question_id ∈ seen
    · simp only [addNew, hq, ite_true]
      exact ih all seen hc hn
    · simp only [addNew, hq, if_neg, ite_false]
      apply ih
      · intro i hi
        unfold idsOf at hi
        rw [List.map_append] at hi
        rcases List.mem_append.mp hi with h1 | h1
        · exact List.mem_cons_of_mem _ (hc i h1)
        · simp at h1
          simp [h1]
      · unfold idsOf
        rw [List.map_append]
        apply List.Nodup.append hn (by simp)
        intro i hi hj
        simp at hj
        subst hj
        exact hq (hc _ hi)

theorem addNew_ids_sub : ∀ (qs all : List Question) (seen : List Int) (i : Int),
    i ∈ idsOf (addNew qs all seen).1 → i ∈ idsOf all ∨ i ∈ idsOf qs := by
  intro qs all seen i hi
  obtain ⟨t, ht1, ht2⟩ := addNew_append qs all seen
  rw [ht1] at hi
  unfold idsOf at hi
  rw [List.map_append] at hi
  rcases List.mem_append.mp hi with h1 | h1
  · exact Or.inl h1
  · right
    obtain ⟨x, hx1, hx2⟩ := List.mem_map.mp h1
    exact List.mem_map.mpr ⟨x, ht2 x hx1, hx2⟩


theorem collectLoop_all_append (api : Nat → FetchOutcome) (si : Nat) :
    ∀ (fuel page : Nat) (all : List Question) (seen : List Int),
      ∃ t, (collectLoop api si fuel page all seen).all = all ++ t := by
  intro fuel
  induction fuel with
  | zero => intro page all seen; exact ⟨[], by simp [collectLoop]⟩
  | succ n ih =>
    intro page all seen
    cases hf : fetch_nlp_questions api page with
    | error e =>
      cases e with
      | interrupt => exact ⟨[], by simp [collectLoop, hf]⟩
      | exn m => exact ⟨[], by simp [collectLoop, hf]⟩
    | ok pr =>
      obtain ⟨qs, quota⟩ := pr
      obtain ⟨t0, ht0⟩ := addNew_append qs all seen
      by_cases h5 : quota < 5
      · exact ⟨t0, by simp [collectLoop, hf, h5, ht0.1]⟩
      · by_cases he : qs = []
        · subst he
          cases hf2 : fetch_nlp_questions api (page + 1) with
          | error e2 =>
            cases e2 with
            | interrupt => exact ⟨[], by simp [collectLoop, hf, h5, hf2, addNew]⟩
            | exn m => exact ⟨[], by simp [collectLoop, hf, h5, hf2, addNew]⟩
          | ok pr2 =>
            obtain ⟨nqs, q2⟩ := pr2
            by_cases he2 : nqs = []
            · subst he2
              exact ⟨[], by simp [collectLoop, hf, h5, hf2, addNew]⟩
            · obtain ⟨t1, ht1⟩ := ih (page + 1) all seen
              refine ⟨t1, ?_⟩
              simp only [collectLoop, hf]
              simp [h5, hf2, he2, addNew, ht1]
        · obtain ⟨t1, ht1⟩ := ih (page + 1) (addNew qs all seen).1 (addNew qs all seen).2
          refine ⟨t0 ++ t1, ?_⟩
          simp only [collectLoop, hf]
          rw [if_neg h5, if_neg (show ¬qs.length = 0 from by simpa using he)]
          rw [ht0.1] at ht1
          simp [ht1, ht0.1, List.append_assoc]

theorem collectLoop_covers (api : Nat → FetchOutcome) (si : Nat) :
    ∀ (fuel page : Nat) (all : List Question) (seen : List Int),
      SeenBounded all seen →
      (∀ p ∈ (collectLoop api si fuel page all seen).processed,
        ∀ i ∈ pageIds api p, i ∈ idsOf (collectLoop api si fuel page all seen).all) := by
  intro fuel
  induction fuel with
  | zero => intro page all seen _ p hp; simp [collectLoop] at hp
  | succ n ih =>
    intro page all seen hsb p hp i hi
    cases hf : fetch_nlp_questions api page with
    | error e =>
      cases e with
      | interrupt => simp [collectLoop, hf] at hp
      | exn m => simp [collectLoop, hf] at hp
    | ok pr =>
      obtain ⟨qs, quota⟩ := pr
      have hcur : ∀ j ∈ pageIds api page, j ∈ idsOf (addNew qs all seen).1 := by
        intro j hj
        rw [pageIds_ok hf] at hj
        obtain ⟨x, hx1, hx2⟩ := List.mem_map.mp hj
        have hseen : x.question_id ∈ (addNew qs all seen).2 := addNew_covers_qs qs all seen x hx1
        have := addNew_inv2 qs all seen hsb _ hseen
        subst hx2
        exact this
      by_cases h5 : quota < 5
      · simp only [collectLoop, hf, h5, ite_true, if_pos] at hp ⊢
        simp at hp
        subst hp
        exact hcur i hi
      · by_cases he : qs = []
        · subst he
          cases hf2 : fetch_nlp_questions api (page + 1) with
          | error e2 =>
            cases e2 with
            | interrupt =>
              simp only [collectLoop, hf, hf2] at hp ⊢
              simp [h5, addNew] at hp ⊢
              subst hp
              have := hcur i hi
              simpa [addNew] using this
            | exn m =>
              simp only [collectLoop, hf, hf2] at hp ⊢
              simp [h5, addNew] at hp ⊢
              subst hp
              have := hcur i hi
              simpa [addNew] using this
          | ok pr2 =>
            obtain ⟨nqs, q2⟩ := pr2
            by_cases he2 : nqs = []
            · subst he2
              simp only [collectLoop, hf, hf2] at hp ⊢
              simp [h5, addNew] at hp ⊢
              subst hp
              have := hcur i hi
              simpa [addNew] using this
            · simp only [collectLoop, hf, hf2] at hp ⊢
              simp [h5, he2, addNew] at hp ⊢
              rcases hp with hp | hp
              · obtain ⟨t1, ht1⟩ := collectLoop_all_append api si n (page + 1) all seen
                subst hp
                have h0 := hcur i hi
                simp [addNew] at h0
                rw [ht1]
                unfold idsOf
                rw [List.map_append]
                exact List.mem_append_left _ h0
              · have := ih (page + 1) all seen hsb p hp i hi
                exact this
        · simp only [collectLoop, hf] at hp ⊢
          simp [h5, he] at hp ⊢
          rcases hp with hp | hp
          · obtain ⟨t1, ht1⟩ := collectLoop_all_append api si n (page + 1)
              (addNew qs all seen).1 (addNew qs all seen).2
            subst hp
            have h0 := hcur i hi
            rw [ht1]
            unfold idsOf
            rw [List.map_append]
            exact List.mem_append_left _ h0
          · exact ih (page + 1) (addNew qs all seen).1 (addNew qs all seen).2
              (addNew_inv2 qs all seen hsb) p hp i hi


theorem collectLoop_absorb (api : Nat → FetchOutcome) (si : Nat) :
    ∀ (fuel page : Nat) (all : List Question) (seen : List Int),
      (∀ p ∈ (collectLoop api si fuel page all seen).processed,
        ∀ i ∈ pageIds api p, i ∈ seen) →
      (collectLoop api si fuel page all seen).all = all := by
  intro fuel
  induction fuel with
  | zero => intro page all seen _; simp [collectLoop]
  | succ n ih =>
    intro page all seen habs
    cases hf : fetch_nlp_questions api page with
    | error e =>
      cases e with
      | interrupt => simp [collectLoop, hf]
      | exn m => simp [collectLoop, hf]
    | ok pr =>
      obtain ⟨qs, quota⟩ := pr
      have hpmem : page ∈ (collectLoop api si (n + 1) page all seen).processed := by
        by_cases h5 : quota < 5
        · simp [collectLoop, hf, h5]
        · by_cases he : qs = []
          · subst he
            cases hf2 : fetch_nlp_questions api (page + 1) with
            | error e2 =>
              cases e2 with
              | interrupt => simp [collectLoop, hf, h5, hf2]
              | exn m => simp [collectLoop, hf, h5, hf2]
            | ok pr2 =>
              obtain ⟨nqs, q2⟩ := pr2
              by_cases he2 : nqs = []
              · subst he2
                simp [collectLoop, hf, h5, hf2]
              · simp [collectLoop, hf, h5, hf2, he2]
          · simp [collectLoop, hf, h5, he]
      have habs2 : ∀ q ∈ qs, q.question_id ∈ seen := by
        intro q hq
        have := habs page hpmem q.question_id
        rw [pageIds_ok hf] at this
        exact this (List.mem_map.mpr ⟨q, hq, rfl⟩)
      have hab : addNew qs all seen = (all, seen) := addNew_absorb qs all seen habs2
      by_cases h5 : quota < 5
      · simp [collectLoop, hf, h5, hab]
      · by_cases he : qs = []
        · subst he
          cases hf2 : fetch_nlp_questions api (page + 1) with
          | error e2 =>
            cases e2 with
            | interrupt => simp [collectLoop, hf, h5, hf2, addNew]
            | exn m => simp [collectLoop, hf, h5, hf2, addNew]
          | ok pr2 =>
            obtain ⟨nqs, q2⟩ := pr2
            by_cases he2 : nqs = []
            · subst he2
              simp [collectLoop, hf, h5, hf2, addNew]
            · simp only [collectLoop, hf]
              simp only [h5, ite_false, if_neg, hf2, he2, List.length_nil, ite_true,
                List.length_eq_zero, addNew, if_true]
              apply ih
              intro p hp i hi
              apply habs p _ i hi
              simp [collectLoop, hf, h5, hf2, he2, addNew]
              exact Or.inr hp
        · simp only [collectLoop, hf]
          rw [if_neg h5, if_neg (show ¬qs.length = 0 from by simpa using he)]
          simp only [hab]
          apply ih
          intro p hp i hi
          apply habs p _ i hi
          simp only [collectLoop, hf]
          rw [if_neg h5, if_neg (show ¬qs.length = 0 from by simpa using he)]
          simp only [hab]
          exact List.mem_cons_of_mem _ hp

theorem collectLoop_nodup (api : Nat → FetchOutcome) (si : Nat) :
    ∀ (fuel page : Nat) (all : List Question) (seen : List Int),
      SeenCovers all seen → (idsOf all).Nodup →
      (idsOf (collectLoop api si fuel page all seen).all).Nodup := by
  intro fuel
  induction fuel with
  | zero => intro page all seen _ h; simpa [collectLoop] using h
  | succ n ih =>
    intro page all seen hc hn
    cases hf : fetch_nlp_questions api page with
    | error e =>
      cases e with
      | interrupt => simpa [collectLoop, hf] using hn
      | exn m => simpa [collectLoop, hf] using hn
    | ok pr =>
      obtain ⟨qs, quota⟩ := pr
      have hn2 := addNew_nodup qs all seen hc hn
      have hc2 := addNew_inv1 qs all seen hc
      by_cases h5 : quota < 5
      · simpa [collectLoop, hf, h5] using hn2
      · by_cases he : qs = []
        · subst he
          cases hf2 : fetch_nlp_questions api (page + 1) with
          | error e2 =>
            cases e2 with
            | interrupt => simpa [collectLoop, hf, h5, hf2, addNew] using hn
            | exn m => simpa [collectLoop, hf, h5, hf2, addNew] using hn
          | ok pr2 =>
            obtain ⟨nqs, q2⟩ := pr2
            by_cases he2 : nqs = []
            · subst he2
              simpa [collectLoop, hf, h5, hf2, addNew] using hn
            · have := ih (page + 1) all seen hc hn
              simpa [collectLoop, hf, h5, hf2, he2, addNew] using this
        · have := ih (page + 1) (addNew qs all seen).1 (addNew qs all seen).2 hc2 hn2
          simp only [collectLoop, hf]
          rw [if_neg h5, if_neg (show ¬qs.length = 0 from by simpa using he)]
          exact this


theorem collectLoop_ids_sub (api : Nat → FetchOutcome) (si : Nat) :
    ∀ (fuel page : Nat) (all : List Question) (seen : List Int),
      ∀ i ∈ idsOf (collectLoop api si fuel page all seen).all,
        i ∈ idsOf all ∨ ∃ p ∈ (collectLoop api si fuel page all seen).processed,
          i ∈ pageIds api p := by
  intro fuel
  induction fuel with
  | zero => intro page all seen i hi; left; simpa [collectLoop] using hi
  | succ n ih =>
    intro page all seen i hi
    cases hf : fetch_nlp_questions api page with
    | error e =>
      cases e with
      | interrupt => left; simpa [collectLoop, hf] using hi
      | exn m => left; simpa [collectLoop, hf] using hi
    | ok pr =>
      obtain ⟨qs, quota⟩ := pr
      have hsplit : ∀ j : Int, j ∈ idsOf (addNew qs all seen).1 →
          j ∈ idsOf all ∨ j ∈ pageIds api page := by
        intro j hj
        rcases addNew_ids_sub qs all seen j hj with h1 | h1
        · exact Or.inl h1
        · right; rw [pageIds_ok hf]; exact h1
      by_cases h5 : quota < 5
      · simp only [collectLoop, hf, h5, ite_true, if_pos] at hi ⊢
        rcases hsplit i hi with h1 | h1
        · exact Or.inl h1
        · exact Or.inr ⟨page, by simp, h1⟩
      · by_cases he : qs = []
        · subst he
          cases hf2 : fetch_nlp_questions api (page + 1) with
          | error e2 =>
            cases e2 with
            | interrupt =>
              left
              simpa [collectLoop, hf, h5, hf2, addNew] using hi
            | exn m =>
              left
              simpa [collectLoop, hf, h5, hf2, addNew] using hi
          | ok pr2 =>
            obtain ⟨nqs, q2⟩ := pr2
            by_cases he2 : nqs = []
            · subst he2
              left
              simpa [collectLoop, hf, h5, hf2, addNew] using hi
            · simp only [collectLoop, hf, h5, hf2, he2, addNew] at hi ⊢
              simp only [List.length_nil, List.length_eq_zero, ite_true, ite_false, if_neg,
                if_true] at hi ⊢
              simp [he2] at hi ⊢
              rcases ih (page + 1) all seen i hi with h1 | ⟨p, hp1, hp2⟩
              · exact Or.inl h1
              · exact Or.inr (Or.inr ⟨p, hp1, hp2⟩)
        · simp only [collectLoop, hf] at hi ⊢
          rw [if_neg h5, if_neg (show ¬qs.length = 0 from by simpa using he)] at hi ⊢
          rcases ih (page + 1) (addNew qs all seen).1 (addNew qs all seen).2 i hi with h1 | ⟨p, hp1, hp2⟩
          · rcases hsplit i h1 with h2 | h2
            · exact Or.inl h2
            · exact Or.inr ⟨page, by simp, h2⟩
          · exact Or.inr ⟨p, by simp [hp1], hp2⟩

theorem processed_sub_fetched (api : Nat → FetchOutcome) (si : Nat) :
    ∀ (fuel page : Nat) (all : List Question) (seen : List Int),
      ∀ p ∈ (collectLoop api si fuel page all seen).processed,
      p ∈ (collectLoop api si fuel page all seen).fetched := by
  intro fuel
  induction fuel with
  | zero => intro page all seen p hp; simp [collectLoop] at hp
  | succ n ih =>
    intro page all seen p hp
    cases hf : fetch_nlp_questions api page with
    | error e =>
      cases e with
      | interrupt => simp [collectLoop, hf] at hp
      | exn m => simp [collectLoop, hf] at hp
    | ok pr =>
      obtain ⟨qs, quota⟩ := pr
      by_cases h5 : quota < 5
      · simp only [collectLoop, hf, h5, ite_true, if_pos] at hp ⊢
        exact hp
      · by_cases he : qs = []
        · subst he
          cases hf2 : fetch_nlp_questions api (page + 1) with
          | error e2 =>
            cases e2 with
            | interrupt =>
              simp [collectLoop, hf, h5, hf2] at hp ⊢
              simp [hp]
            | exn m =>
              simp [collectLoop, hf, h5, hf2] at hp ⊢
              simp [hp]
          | ok pr2 =>
            obtain ⟨nqs, q2⟩ := pr2
            by_cases he2 : nqs = []
            · subst he2
              simp [collectLoop, hf, h5, hf2] at hp ⊢
              simp [hp]
            · simp [collectLoop, hf, h5, hf2, he2] at hp ⊢
              rcases hp with h1 | h1
              · exact Or.inl h1
              · exact Or.inr (Or.inr (ih _ _ _ p h1))
        · simp [collectLoop, hf, h5, he] at hp ⊢
          rcases hp with h1 | h1
          · exact Or.inl h1
          · exact Or.inr (ih _ _ _ p h1)

theorem collectLoop_saves_filter (api : Nat → FetchOutcome) (si : Nat) :
    ∀ (fuel page : Nat) (all : List Question) (seen : List Int),
      (collectLoop api si fuel page all seen).saves =
        (collectLoop api si fuel page all seen).processed.filter
          (fun p => decide (p % si = 0)) := by
  intro fuel
  induction fuel with
  | zero => intro page all seen; simp [collectLoop]
  | succ n ih =>
    intro page all seen
    cases hf : fetch_nlp_questions api page with
    | error e =>
      cases e with
      | interrupt => simp [collectLoop, hf]
      | exn m => simp [collectLoop, hf]
    | ok pr =>
      obtain ⟨qs, quota⟩ := pr
      by_cases h5 : quota < 5
      · by_cases hm : page % si = 0
        · simp [collectLoop, hf, h5, hm, List.filter_cons]
        · simp [collectLoop, hf, h5, hm, List.filter_cons]
      · by_cases he : qs = []
        · subst he
          cases hf2 : fetch_nlp_questions api (page + 1) with
          | error e2 =>
            cases e2 with
            | interrupt =>
              by_cases hm : page % si = 0
              · simp [collectLoop, hf, h5, hf2, hm, List.filter_cons]
              · simp [collectLoop, hf, h5, hf2, hm, List.filter_cons]
            | exn m =>
              by_cases hm : page % si = 0
              · simp [collectLoop, hf, h5, hf2, hm, List.filter_cons]
              · simp [collectLoop, hf, h5, hf2, hm, List.filter_cons]
          | ok pr2 =>
            obtain ⟨nqs, q2⟩ := pr2
            by_cases he2 : nqs = []
            · subst he2
              by_cases hm : page % si = 0
              · simp [collectLoop, hf, h5, hf2, hm, List.filter_cons]
              · simp [collectLoop, hf, h5, hf2, hm, List.filter_cons]
            · by_cases hm : page % si = 0
              · simp [collectLoop, hf, h5, hf2, he2, hm, List.filter_cons, ih]
              · simp [collectLoop, hf, h5, hf2, he2, hm, List.filter_cons, ih]
        · by_cases hm : page % si = 0
          · simp [collectLoop, hf, h5, he, hm, List.filter_cons, ih]
          · simp [collectLoop, hf, h5, he, hm, List.filter_cons, ih]


theorem collectLoop_end_iff (api : Nat → FetchOutcome) (si : Nat) :
    ∀ (fuel page : Nat) (all : List Question) (seen : List Int),
      ((collectLoop api si fuel page all seen).exit = .endOfResults ↔
        ∃ p, (collectLoop api si fuel page all seen).processed.getLast? = some p ∧
          EndCond api p) := by
  intro fuel
  induction fuel with
  | zero => intro page all seen; simp [collectLoop]
  | succ n ih =>
    intro page all seen
    cases hf : fetch_nlp_questions api page with
    | error e =>
      cases e with
      | interrupt => simp [collectLoop, hf]
      | exn m => simp [collectLoop, hf]
    | ok pr =>
      obtain ⟨qs, quota⟩ := pr
      by_cases h5 : quota < 5
      · simp only [collectLoop, hf, h5, ite_true, if_pos]
        constructor
        · intro hx; exact absurd hx (by simp)
        · rintro ⟨p, hp, quota2, q2, hfp, h5c, hfp2⟩
          simp at hp
          subst hp
          rw [hf] at hfp
          simp at hfp
          omega
      · by_cases he : qs = []
        · subst he
          cases hf2 : fetch_nlp_questions api (page + 1) with
          | error e2 =>
            cases e2 with
            | interrupt =>
              simp only [collectLoop, hf, hf2]
              simp only [h5, ite_false, if_neg, List.length_nil, ite_true, if_true,
                List.length_eq_zero]
              constructor
              · intro hx; exact absurd hx (by simp)
              · rintro ⟨p, hp, quota2, q2, hfp, h5c, hfp2⟩
                simp at hp
                subst hp
                rw [hf2] at hfp2
                cases hfp2
            | exn m =>
              simp only [collectLoop, hf, hf2]
              simp only [h5, ite_false, if_neg, List.length_nil, ite_true, if_true,
                List.length_eq_zero]
              constructor
              · intro hx; exact absurd hx (by simp)
              · rintro ⟨p, hp, quota2, q2, hfp, h5c, hfp2⟩
                simp at hp
                subst hp
                rw [hf2] at hfp2
                cases hfp2
          | ok pr2 =>
            obtain ⟨nqs, q2⟩ := pr2
            by_cases he2 : nqs = []
            · subst he2
              simp only [collectLoop, hf, hf2]
              simp only [h5, ite_false, if_neg, List.length_nil, ite_true, if_true,
                List.length_eq_zero]
              constructor
              · intro _
                exact ⟨page, by simp, quota, q2, hf, h5, hf2⟩
              · intro _
                trivial
            · simp only [collectLoop, hf, hf2]
              simp only [h5, ite_false, if_neg, List.length_nil, ite_true, if_true,
                List.length_eq_zero, he2]
              cases hrp : (collectLoop api si n (page + 1) (addNew [] all seen).1
                  (addNew [] all seen).2).processed with
              | nil =>
                have hih := ih (page + 1) (addNew [] all seen).1 (addNew [] all seen).2
                rw [hrp] at hih
                simp at hih
                constructor
                · intro hx
                  exact absurd hx hih
                · rintro ⟨p, hp, quota2, q3, hfp, h5c, hfp2⟩
                  simp at hp
                  subst hp
                  rw [hf2] at hfp2
                  simp at hfp2
                  exact absurd hfp2.1 he2
              | cons r0 rs =>
                have hih := ih (page + 1) (addNew [] all seen).1 (addNew [] all seen).2
                rw [hrp] at hih
                simp only [List.getLast?_cons_cons]
                rw [hih]
        · simp only [collectLoop, hf]
          rw [if_neg h5, if_neg (show ¬qs.length = 0 from by simpa using he)]
          dsimp only
          cases hrp : (collectLoop api si n (page + 1) (addNew qs all seen).1
              (addNew qs all seen).2).processed with
          | nil =>
            have hih := ih (page + 1) (addNew qs all seen).1 (addNew qs all seen).2
            rw [hrp] at hih
            simp at hih
            constructor
            · intro hx
              exact absurd hx hih
            · rintro ⟨p, hp, quota2, q3, hfp, h5c, hfp2⟩
              simp at hp
              subst hp
              rw [hf] at hfp
              simp at hfp
              exact absurd hfp.1 he
          | cons r0 rs =>
            have hih := ih (page + 1) (addNew qs all seen).1 (addNew qs all seen).2
            rw [hrp] at hih
            simp only [List.getLast?_cons_cons]
            rw [hih]


/-- C2: every exit path of the collection loop (normal completion, low
quota, end of results, user interruption, unexpected runtime error) ends in
exactly one final save of the full in-memory collection.  The last five
conjuncts exhibit one concrete run per exit path. -/
theorem collect_final_save_always (api : Nat → FetchOutcome)
    (mp sp si : Nat) (initial : List Question) :
    (collect_all_questions api mp sp si initial).finalSaveCount = 1 ∧
    (collect_all_questions api mp sp si initial).savedQuestions =
      (collect_all_questions api mp sp si initial).questions ∧
    (collect_all_questions apiInterrupt 3 1 5 []).exit = .interrupted ∧
    (collect_all_questions apiBoom 3 1 5 []).exit = .errored "boom" ∧
    (collect_all_questions apiHttpErr 5 11 3 []).exit = .lowQuota ∧
    (collect_all_questions apiDupThenEmpty 10 1 7 []).exit = .endOfResults ∧
    (collect_all_questions apiSteady 4 1 9 []).exit = .normal :=
  ⟨rfl, rfl, rfl, rfl, rfl, rfl, rfl⟩

/-- C1 counterexample: on a non-success HTTP status (page 11) the fetcher
returns `([], 0)` without raising, but the collector does NOT continue to
the next page: only page 11 is ever fetched although four more pages were
requested, because the zero quota triggers the low-quota stop. -/
theorem collect_http_error_cex :
    apiHttpErr 11 = .httpError 500 ∧
    fetch_nlp_questions apiHttpErr 11 = .ok ([], 0) ∧
    (collect_all_questions apiHttpErr 5 11 3 []).fetched = [11] ∧
    (collect_all_questions apiHttpErr 5 11 3 []).exit = .lowQuota :=
  ⟨rfl, rfl, rfl, rfl⟩

/-- C1 amended: a non-success HTTP status on a page fetch is non-fatal for
the fetcher — it returns an empty list and zero quota, only logging — but
the collector then stops the loop at that page via the low-quota check
(`0 < 5`) instead of continuing to the next page, and still performs its
single final save. -/
theorem http_error_graceful_stop (api : Nat → FetchOutcome) (page code fuel si : Nat)
    (all : List Question) (seen : List Int) (h : api page = .httpError code) :
    fetch_nlp_questions api page = .ok ([], 0) ∧
    collectLoop api si (fuel + 1) page all seen =
      ⟨all, seen, [page], [page], if page % si = 0 then [page] else [], .lowQuota⟩ ∧
    (collect_all_questions api (fuel + 1) page si all).finalSaveCount = 1 := by
  have hf : fetch_nlp_questions api page = .ok ([], 0) := by
    simp [fetch_nlp_questions, h]
  refine ⟨hf, ?_, rfl⟩
  simp [collectLoop, hf, addNew]

/-- Witness for `http_error_graceful_stop`. -/
theorem http_error_graceful_stop_w :
    apiHttpErr 11 = .httpError 500 ∧
    (fetch_nlp_questions apiHttpErr 11 = .ok ([], 0) ∧
     collectLoop apiHttpErr 3 (4 + 1) 11 [] [] =
       ⟨[], [], [11], [11], if 11 % 3 = 0 then [11] else [], .lowQuota⟩ ∧
     (collect_all_questions apiHttpErr (4 + 1) 11 3 []).finalSaveCount = 1) :=
  ⟨rfl, http_error_graceful_stop apiHttpErr 11 500 4 3 [] [] rfl⟩

/-- C10: a mid-run save fires exactly on those processed pages whose
absolute page number is divisible by `save_interval`, independent of
`start_page`; concretely, starting at page 11 with interval 5 the single
mid-run save of a seven-page run happens at page 15. -/
theorem collect_interval_saves_absolute (api : Nat → FetchOutcome)
    (mp sp si : Nat) (initial : List Question) (hsi : 0 < si) :
    (collect_all_questions api mp sp si initial).intervalSaves =
      (collect_all_questions api mp sp si initial).processed.filter
        (fun p => decide (p % si = 0)) ∧
    (collect_all_questions apiSteady 7 11 5 []).processed =
      [11, 12, 13, 14, 15, 16, 17] ∧
    (collect_all_questions apiSteady 7 11 5 []).intervalSaves = [15] :=
  ⟨collectLoop_saves_filter api si mp sp initial _, rfl, rfl⟩

/-- Witness for `collect_interval_saves_absolute`. -/
theorem collect_interval_saves_absolute_w :
    0 < 5 ∧
    ((collect_all_questions apiSteady 7 11 5 []).intervalSaves =
      (collect_all_questions apiSteady 7 11 5 []).processed.filter
        (fun p => decide (p % 5 = 0)) ∧
    (collect_all_questions apiSteady 7 11 5 []).processed =
      [11, 12, 13, 14, 15, 16, 17] ∧
    (collect_all_questions apiSteady 7 11 5 []).intervalSaves = [15]) :=
  ⟨by decide, collect_interval_saves_absolute apiSteady 7 11 5 [] (by decide)⟩


/-- C3: the collector appends a record only when its id is unseen.
Consequently (i) re-running the collector over the same page sequence,
resuming from the stored collection, leaves the collection unchanged,
(ii) the stored collection has pairwise-distinct ids whenever the loaded
one had, and (iii) a run from an empty store collects no more questions
than the number of distinct ids returned across its fetches. -/
theorem collect_dedup (api : Nat → FetchOutcome) (mp sp si : Nat)
    (initial : List Question) (hinit : (idsOf initial).Nodup) :
    (collect_all_questions api mp sp si
        (collect_all_questions api mp sp si initial).questions).questions =
      (collect_all_questions api mp sp si initial).questions ∧
    (idsOf (collect_all_questions api mp sp si initial).questions).Nodup ∧
    (initial = [] →
      (collect_all_questions api mp sp si initial).questions.length ≤
        ((collect_all_questions api mp sp si initial).fetched.map
          (pageIds api)).flatten.dedup.length) := by
  have hcov : SeenCovers initial (initial.map fun q => q.question_id) := fun i hi => hi
  have hbnd : SeenBounded initial (initial.map fun q => q.question_id) := fun i hi => hi
  refine ⟨?_, ?_, ?_⟩
  · have h1 := collectLoop_covers api si mp sp initial
      (initial.map fun q => q.question_id) hbnd
    have hctl := collectLoop_ctl api si mp sp
      ((collect_all_questions api mp sp si initial).questions) initial
      (((collect_all_questions api mp sp si initial).questions).map
        fun q => q.question_id)
      (initial.map fun q => q.question_id)
    have habs : ∀ p ∈ (collectLoop api si mp sp
        ((collect_all_questions api mp sp si initial).questions)
        (((collect_all_questions api mp sp si initial).questions).map
          fun q => q.question_id)).processed,
        ∀ i ∈ pageIds api p,
          i ∈ ((collect_all_questions api mp sp si initial).questions).map
            fun q => q.question_id := by
      intro p hp i hi
      rw [hctl.2.1] at hp
      exact h1 p hp i hi
    exact collectLoop_absorb api si mp sp _ _ habs
  · exact collectLoop_nodup api si mp sp initial _ hcov hinit
  · intro h0
    subst h0
    have hnd : (idsOf (collectLoop api si mp sp ([] : List Question)
        (([] : List Question).map fun q => q.question_id)).all).Nodup :=
      collectLoop_nodup api si mp sp [] _ (fun i hi => hi) (by simp [idsOf])
    have hsub : ∀ i ∈ idsOf (collectLoop api si mp sp ([] : List Question)
        (([] : List Question).map fun q => q.question_id)).all,
        i ∈ ((collectLoop api si mp sp ([] : List Question)
          (([] : List Question).map fun q => q.question_id)).fetched.map
            (pageIds api)).flatten := by
      intro i hi
      rcases collectLoop_ids_sub api si mp sp [] _ i hi with h1 | ⟨p, hp1, hp2⟩
      · simp [idsOf] at h1
      · have hpf := processed_sub_fetched api si mp sp [] _ p hp1
        exact List.mem_flatten.mpr ⟨pageIds api p, List.mem_map.mpr ⟨p, hpf, rfl⟩, hp2⟩
    have hlen : (idsOf (collectLoop api si mp sp ([] : List Question)
        (([] : List Question).map fun q => q.question_id)).all).length =
        (collectLoop api si mp sp ([] : List Question)
          (([] : List Question).map fun q => q.question_id)).all.length := by
      simp [idsOf]
    calc (collect_all_questions api mp sp si []).questions.length
        = (idsOf (collectLoop api si mp sp ([] : List Question)
            (([] : List Question).map fun q => q.question_id)).all).length := hlen.symm
      _ = (idsOf (collectLoop api si mp sp ([] : List Question)
            (([] : List Question).map fun q => q.question_id)).all).toFinset.card :=
          (List.toFinset_card_of_nodup hnd).symm
      _ ≤ (((collectLoop api si mp sp ([] : List Question)
            (([] : List Question).map fun q => q.question_id)).fetched.map
              (pageIds api)).flatten).toFinset.card := by
          apply Finset.card_le_card
          intro i hi
          exact List.mem_toFinset.mpr (hsub i (List.mem_toFinset.mp hi))
      _ = (((collectLoop api si mp sp ([] : List Question)
            (([] : List Question).map fun q => q.question_id)).fetched.map
              (pageIds api)).flatten).dedup.length := List.card_toFinset _

/-- Witness for `collect_dedup`. -/
theorem collect_dedup_w :
    (idsOf ([] : List Question)).Nodup ∧
    ((collect_all_questions apiDupThenEmpty 10 1 7
        (collect_all_questions apiDupThenEmpty 10 1 7 []).questions).questions =
      (collect_all_questions apiDupThenEmpty 10 1 7 []).questions ∧
    (idsOf (collect_all_questions apiDupThenEmpty 10 1 7 []).questions).Nodup ∧
    (([] : List Question) = [] →
      (collect_all_questions apiDupThenEmpty 10 1 7 []).questions.length ≤
        ((collect_all_questions apiDupThenEmpty 10 1 7 []).fetched.map
          (pageIds apiDupThenEmpty)).flatten.dedup.length)) :=
  ⟨by simp [idsOf], collect_dedup apiDupThenEmpty 10 1 7 [] (by simp [idsOf])⟩

/-- C4 counterexample: on `apiDupThenEmpty`, page 2 returns zero NEW
questions (the collection does not grow between a one-page and a two-page
run) and page 3 returns zero questions, yet the collector does not stop at
page 2: it goes on to process page 3 (and probe page 4). -/
theorem end_detection_cex :
    (collect_all_questions apiDupThenEmpty 2 1 7 []).questions =
      (collect_all_questions apiDupThenEmpty 1 1 7 []).questions ∧
    pageIds apiDupThenEmpty 3 = [] ∧
    (collect_all_questions apiDupThenEmpty 10 1 7 []).processed = [1, 2, 3] ∧
    (collect_all_questions apiDupThenEmpty 10 1 7 []).fetched = [1, 2, 3, 4] :=
  ⟨rfl, rfl, rfl, rfl⟩

/-- C4 amended: the collector stops early with the end-of-results exit
exactly when the last page it processed returned zero questions (zero raw
items, not merely zero new ones) with a quota of at least 5, and the
confirmation probe of the immediately following page also returned zero
questions; the final persist runs exactly once on that exit as on every
other. -/
theorem collect_end_of_results_exactly (api : Nat → FetchOutcome)
    (mp sp si : Nat) (initial : List Question) (hsi : 0 < si) :
    ((collect_all_questions api mp sp si initial).exit = .endOfResults ↔
      ∃ p, (collect_all_questions api mp sp si initial).processed.getLast? = some p ∧
        EndCond api p) ∧
    (collect_all_questions api mp sp si initial).finalSaveCount = 1 :=
  ⟨collectLoop_end_iff api si mp sp initial _, rfl⟩

/-- Witness for `collect_end_of_results_exactly`. -/
theorem collect_end_of_results_exactly_w :
    0 < 7 ∧
    (((collect_all_questions apiDupThenEmpty 10 1 7 []).exit = .endOfResults ↔
      ∃ p, (collect_all_questions apiDupThenEmpty 10 1 7 []).processed.getLast? = some p ∧
        EndCond apiDupThenEmpty p) ∧
    (collect_all_questions apiDupThenEmpty 10 1 7 []).finalSaveCount = 1) :=
  ⟨by decide, collect_end_of_results_exactly apiDupThenEmpty 10 1 7 [] (by decide)⟩


theorem lookupA_append (m m2 : AMap) (q : Int) :
    lookupA (m ++ m2) q = match lookupA m q with
      | some e => some e
      | none => lookupA m2 q := by
  induction m with
  | nil => simp [lookupA]
  | cons kv rest ih =>
    obtain ⟨k, e⟩ := kv
    by_cases hk : k = q
    · simp [lookupA, hk]
    · simp only [List.cons_append, lookupA, hk, ite_false, if_neg]
      exact ih

theorem lookupA_setA (m : AMap) (k : Int) (v : QEntry) (q : Int) :
    lookupA (setA m k v) q =
      if q = k then ((lookupA m k).map fun _ => v) else lookupA m q := by
  induction m with
  | nil => by_cases h : q = k <;> simp [setA, lookupA, h]
  | cons kv rest ih =>
    obtain ⟨k0, e0⟩ := kv
    by_cases h0 : k0 = k
    · subst h0
      by_cases hq : q = k0
      · subst hq
        simp [setA, lookupA]
      · have hq2 : ¬ k0 = q := fun h => hq h.symm
        simp [setA, lookupA, hq, hq2]
    · by_cases hq0 : k0 = q
      · subst hq0
        simp [setA, lookupA, h0]
      · simp only [setA, if_neg h0, lookupA, if_neg hq0]
        rw [ih]

theorem lookupA_addAnswer (parser : List Char → Option (List Char)) (m : AMap)
    (a : RawAnswer) (q : Int) :
    lookupA (addAnswer parser m a) q =
      if q = a.question_id then
        some (bucketAdd (toAnswerData parser a) (a.accepted.getD false)
          ((lookupA m a.question_id).getD ⟨[], []⟩))
      else lookupA m q := by
  unfold addAnswer
  by_cases hs : (lookupA m a.question_id).isSome
  · obtain ⟨e, he⟩ := Option.isSome_iff_exists.mp hs
    simp only [hs, ite_true, if_true]
    rw [lookupA_setA]
    by_cases hq : q = a.question_id
    · subst hq
      simp [he]
    · simp [hq]
  · have hnone : lookupA m a.question_id = none := Option.not_isSome_iff_eq_none.mp hs
    simp only [hs, ite_false, if_neg, Bool.false_eq_true]
    rw [lookupA_setA]
    have hl : lookupA (m ++ [(a.question_id, (⟨[], []⟩ : QEntry))]) a.question_id =
        some ⟨[], []⟩ := by
      rw [lookupA_append, hnone]
      simp [lookupA]
    by_cases hq : q = a.question_id
    · subst hq
      simp [hl, hnone]
    · simp only [hq, ite_false, if_neg]
      rw [lookupA_append]
      cases hmq : lookupA m q with
      | some e => simp
      | none =>
        have hq2 : ¬ a.question_id = q := fun h => hq h.symm
        simp [lookupA, hq2]


theorem accOf_cons (parser : List Char → Option (List Char)) (a : RawAnswer)
    (rest : List RawAnswer) (q : Int) :
    accOf parser (a :: rest) q =
      if a.question_id = q ∧ a.accepted.getD false = true then
        toAnswerData parser a :: accOf parser rest q
      else accOf parser rest q := by
  unfold accOf
  by_cases h : a.question_id = q ∧ a.accepted.getD false = true
  · rw [if_pos h]
    rw [List.filter_cons_of_pos (by simp [h.1, h.2])]
    simp
  · rw [if_neg h]
    rw [List.filter_cons_of_neg (by
      simp only [Bool.and_eq_true, beq_iff_eq, not_and]
      intro h1 h2
      exact h ⟨h1, h2⟩)]

theorem othOf_cons (parser : List Char → Option (List Char)) (a : RawAnswer)
    (rest : List RawAnswer) (q : Int) :
    othOf parser (a :: rest) q =
      if a.question_id = q ∧ a.accepted.getD false = false then
        toAnswerData parser a :: othOf parser rest q
      else othOf parser rest q := by
  unfold othOf
  by_cases h : a.question_id = q ∧ a.accepted.getD false = false
  · rw [if_pos h]
    rw [List.filter_cons_of_pos (by simp [h.1, h.2])]
    simp
  · rw [if_neg h]
    rw [List.filter_cons_of_neg (by
      simp only [Bool.and_eq_true, beq_iff_eq, Bool.not_eq_true', not_and]
      intro h1 h2
      exact h ⟨h1, h2⟩)]

theorem filter_qid_cons_isEmpty (a : RawAnswer) (rest : List RawAnswer) (q : Int)
    (hq : ¬ a.question_id = q) :
    ((a :: rest).filter (fun x => x.question_id == q)).isEmpty =
      (rest.filter (fun x => x.question_id == q)).isEmpty := by
  rw [List.filter_cons_of_neg (by simp [hq])]

theorem lookupA_groupAnswers (parser : List Char → Option (List Char)) :
    ∀ (l : List RawAnswer) (m : AMap) (q : Int),
      lookupA (groupAnswers parser m l) q =
        match lookupA m q with
        | some e => some ⟨e.accepted ++ accOf parser l q, e.others ++ othOf parser l q⟩
        | none =>
          if (l.filter (fun a => a.question_id == q)).isEmpty then none
          else some ⟨accOf parser l q, othOf parser l q⟩ := by
  intro l
  induction l with
  | nil =>
    intro m q
    cases h : lookupA m q with
    | some e => simp [groupAnswers, accOf, othOf, h]
    | none => simp [groupAnswers, accOf, othOf, h]
  | cons a rest ih =>
    intro m q
    have hstep : groupAnswers parser m (a :: rest) =
        groupAnswers parser (addAnswer parser m a) rest := rfl
    rw [hstep, ih, lookupA_addAnswer]
    by_cases hq : q = a.question_id
    · subst hq
      rw [if_pos rfl, accOf_cons, othOf_cons]
      cases hacc : a.accepted.getD false with
      | true =>
        rw [if_pos (show a.question_id = a.question_id ∧ true = true from ⟨rfl, rfl⟩),
            if_neg (show ¬(a.question_id = a.question_id ∧ true = false) from by simp)]
        cases hm : lookupA m a.question_id with
        | some e =>
          simp [hm, bucketAdd, hacc, List.append_assoc]
        | none =>
          rw [List.filter_cons_of_pos (by simp)]
          simp [hm, bucketAdd, hacc]
      | false =>
        rw [if_neg (show ¬(a.question_id = a.question_id ∧ false = true) from by simp),
            if_pos (show a.question_id = a.question_id ∧ false = false from ⟨rfl, rfl⟩)]
        cases hm : lookupA m a.question_id with
        | some e =>
          simp [hm, bucketAdd, hacc, List.append_assoc]
        | none =>
          rw [List.filter_cons_of_pos (by simp)]
          simp [hm, bucketAdd, hacc]
    · have hq2 : ¬ a.question_id = q := fun h => hq h.symm
      rw [accOf_cons, othOf_cons]
      rw [if_neg (show ¬(a.question_id = q ∧ a.accepted.getD false = true) from
            by rintro ⟨h1, -⟩; exact hq2 h1),
          if_neg (show ¬(a.question_id = q ∧ a.accepted.getD false = false) from
            by rintro ⟨h1, -⟩; exact hq2 h1)]
      rw [if_neg hq]
      cases hm : lookupA m q with
      | some e => simp
      | none => rw [filter_qid_cons_isEmpty a rest q hq2]


theorem mem_sortInsert (a x : AnswerData) (l : List AnswerData) :
    x ∈ sortInsert a l ↔ x = a ∨ x ∈ l := by
  induction l with
  | nil => simp [sortInsert]
  | cons b rest ih =>
    rw [sortInsert]
    by_cases hb : b.score ≤ a.score
    · rw [if_pos hb]
      simp
    · rw [if_neg hb]
      simp only [List.mem_cons, ih]
      tauto

theorem sortInsert_pairwise (a : AnswerData) (l : List AnswerData)
    (h : l.Pairwise (fun x y => y.score ≤ x.score)) :
    (sortInsert a l).Pairwise (fun x y => y.score ≤ x.score) := by
  induction l with
  | nil => simp [sortInsert]
  | cons b rest ih =>
    obtain ⟨hb1, hb2⟩ := List.pairwise_cons.mp h
    rw [sortInsert]
    by_cases hb : b.score ≤ a.score
    · rw [if_pos hb]
      apply List.Pairwise.cons _ h
      intro z hz
      rcases List.mem_cons.mp hz with rfl | hz2
      · exact hb
      · exact le_trans (hb1 z hz2) hb
    · rw [if_neg hb]
      apply List.Pairwise.cons
      · intro z hz
        rcases (mem_sortInsert a z rest).mp hz with rfl | hz2
        · omega
        · exact hb1 z hz2
      · exact ih hb2

theorem sortDesc_pairwise (l : List AnswerData) :
    (sortDesc l).Pairwise (fun x y => y.score ≤ x.score) := by
  induction l with
  | nil => simp [sortDesc]
  | cons a rest ih => exact sortInsert_pairwise a _ ih

theorem length_sortInsert (a : AnswerData) (l : List AnswerData) :
    (sortInsert a l).length = l.length + 1 := by
  induction l with
  | nil => rfl
  | cons b rest ih =>
    rw [sortInsert]
    by_cases hb : b.score ≤ a.score
    · rw [if_pos hb]
      simp
    · rw [if_neg hb]
      simp [ih]

theorem length_sortDesc (l : List AnswerData) : (sortDesc l).length = l.length := by
  induction l with
  | nil => rfl
  | cons a rest ih =>
    show (sortInsert a (sortDesc rest)).length = rest.length + 1
    rw [length_sortInsert, ih]

theorem fetchAnswersLoop_single (parser : List Char → Option (List Char))
    (api : List Int → AnsOutcome) (ids : List Int) (hne : ids ≠ [])
    (h100 : ids.length ≤ 100) (items : List RawAnswer) (quota : Nat)
    (hapi : api ids = .success items quota) :
    fetchAnswersLoop parser api ids [] = groupAnswers parser [] items := by
  cases ids with
  | nil => exact absurd rfl hne
  | cons i rest =>
    rw [fetchAnswersLoop]
    rw [List.take_of_length_le h100, List.drop_eq_nil_of_le h100, hapi]
    by_cases hq : quota < 100
    · simp [hq]
    · simp [hq, fetchAnswersLoop]

theorem lookupA_mapVals (top_n : Nat) (m : AMap) (q : Int) :
    lookupA (mapValsSortTrunc top_n m) q = (lookupA m q).map (sortTrunc top_n) := by
  induction m with
  | nil => simp [mapValsSortTrunc, lookupA]
  | cons kv rest ih =>
    obtain ⟨k, e⟩ := kv
    by_cases hk : k = q
    · simp [mapValsSortTrunc, lookupA, hk]
    · simp only [mapValsSortTrunc, List.map_cons, lookupA, hk, ite_false, if_neg]
      exact ih

/-- C5: for a question whose returned answers hold N accepted and M
non-accepted entries, the answer fetcher maps its id to an entry whose
accepted list has length N and whose others list has length min(M, top_n),
sorted by score descending. -/
theorem fetch_answers_bucketing (parser : List Char → Option (List Char))
    (api : List Int → AnsOutcome) (question_ids : List Int) (ans : List RawAnswer)
    (quota top_n : Nat) (qid : Int)
    (hne : question_ids ≠ []) (h100 : question_ids.length ≤ 100)
    (hapi : api question_ids = .success ans quota)
    (hhas : (ans.filter (fun a => a.question_id == qid)).isEmpty = false) :
    ∃ e, lookupA (fetch_answers_for_questions parser api question_ids top_n) qid =
        some e ∧
      e.accepted.length =
        (ans.filter (fun a => a.question_id == qid && a.accepted.getD false)).length ∧
      e.others.length =
        min (ans.filter (fun a => a.question_id == qid && !(a.accepted.getD false))).length
          top_n ∧
      e.others.Pairwise (fun x y => y.score ≤ x.score) := by
  have hloop := fetchAnswersLoop_single parser api question_ids hne h100 ans quota hapi
  unfold fetch_answers_for_questions
  rw [if_neg (by simpa using hne)]
  rw [hloop, lookupA_mapVals, lookupA_groupAnswers]
  simp only [lookupA]
  rw [hhas]
  refine ⟨sortTrunc top_n ⟨accOf parser ans qid, othOf parser ans qid⟩, ?_, ?_, ?_, ?_⟩
  · simp
  · simp [sortTrunc, accOf]
  · simp only [sortTrunc, List.length_take, length_sortDesc]
    rw [Nat.min_comm]
    simp [othOf]
  · exact List.Pairwise.sublist (List.take_sublist _ _) (sortDesc_pairwise _)

/-- Witness for `fetch_answers_bucketing`. -/
theorem fetch_answers_bucketing_w :
    ([7] : List Int) ≠ [] ∧ ([7] : List Int).length ≤ 100 ∧
    ansApi7 [7] = .success [ansA, ansB, ansC, ansD, ansE] 500 ∧
    (([ansA, ansB, ansC, ansD, ansE].filter
      (fun a => a.question_id == (7 : Int))).isEmpty = false) ∧
    (∃ e, lookupA (fetch_answers_for_questions parser0 ansApi7 [7] 3) 7 = some e ∧
      e.accepted.length =
        ([ansA, ansB, ansC, ansD, ansE].filter
          (fun a => a.question_id == (7 : Int) && a.accepted.getD false)).length ∧
      e.others.length =
        min ([ansA, ansB, ansC, ansD, ansE].filter
          (fun a => a.question_id == (7 : Int) && !(a.accepted.getD false))).length 3 ∧
      e.others.Pairwise (fun x y => y.score ≤ x.score)) :=
  ⟨by decide, by decide, rfl, by decide,
   fetch_answers_bucketing parser0 ansApi7 [7] [ansA, ansB, ansC, ansD, ansE] 500 3 7
     (by decide) (by decide) rfl (by decide)⟩


theorem buildRow_qid (parser : List Char → Option (List Char)) (m : AMap) (q : Question) :
    (buildRow parser m q).question_id = q.question_id := by
  unfold buildRow
  cases lookupA m q.question_id <;> rfl

theorem chunkRows_ids (parser : List Char → Option (List Char))
    (api : List Int → AnsOutcome) (top_n : Nat) :
    ∀ (batch_size : Nat), 0 < batch_size → ∀ (qs : List Question),
      (chunkRows parser api top_n batch_size qs).map (fun r => r.question_id) =
        qs.map (fun q => q.question_id) := by
  intro bs hbs qs
  induction qs using chunkRows.induct parser api top_n bs with
  | case1 => simp [chunkRows]
  | case2 q rest hz =>
    exact absurd hz (Nat.pos_iff_ne_zero.mp hbs)
  | case3 q rest hz ih =>
    rw [chunkRows, if_neg hz]
    rw [List.map_append, List.map_map, ih]
    rw [show ((fun r => r.question_id) ∘ buildRow parser
        (fetch_answers_for_questions parser api
          (((q :: rest).take bs).map fun x => x.question_id) top_n)) =
        (fun q => q.question_id) from funext fun x => buildRow_qid _ _ x]
    rw [← List.map_append]
    rw [List.take_append_drop]


/-- C6: the joiner processes exactly the questions whose id is absent from
the output table's skip-list, appending one row per such question, so the
final table's question ids are the old ids followed by the ids of the newly
processed questions, pairwise distinct. -/
theorem joiner_no_duplicate_rows (parser : List Char → Option (List Char))
    (api : List Int → AnsOutcome) (questions : List Question) (ex : List Row)
    (bs tn : Nat) (hbs : 0 < bs)
    (hq : (questions.map (fun q => q.question_id)).Nodup)
    (hex : (ex.map (fun r => r.question_id)).Nodup) :
    ((process_questions_with_answers parser api questions (some ex) bs tn).map
        (fun r => r.question_id)) =
      ex.map (fun r => r.question_id) ++
        (questions.filter (fun q =>
          !((ex.map (fun r => r.question_id)).contains q.question_id))).map
          (fun q => q.question_id) ∧
    ((process_questions_with_answers parser api questions (some ex) bs tn).map
        (fun r => r.question_id)).Nodup := by
  have hmain : ((process_questions_with_answers parser api questions (some ex) bs tn).map
      (fun r => r.question_id)) =
      ex.map (fun r => r.question_id) ++
        (questions.filter (fun q =>
          !((ex.map (fun r => r.question_id)).contains q.question_id))).map
          (fun q => q.question_id) := by
    unfold process_questions_with_answers
    by_cases hqe : questions.isEmpty
    · have hq0 : questions = [] := by simpa [List.isEmpty_iff] using hqe
      subst hq0
      simp
    · rw [if_neg hqe]
      simp only [Option.getD_some]
      by_cases htp : (questions.filter (fun q =>
          !((ex.map (fun r => r.question_id)).contains q.question_id))).isEmpty
      · rw [if_pos htp]
        have : (questions.filter (fun q =>
            !((ex.map (fun r => r.question_id)).contains q.question_id))) = [] := by
          simpa [List.isEmpty_iff] using htp
        rw [this]
        simp
      · rw [if_neg htp]
        by_cases hexe : ex.isEmpty
        · have hex0 : ex = [] := by simpa [List.isEmpty_iff] using hexe
          subst hex0
          simp only [List.isEmpty_nil, ite_true, if_pos]
          rw [chunkRows_ids parser api tn bs hbs]
          simp
        · rw [if_neg hexe]
          rw [List.map_append]
          rw [chunkRows_ids parser api tn bs hbs]
  refine ⟨hmain, ?_⟩
  rw [hmain]
  apply List.Nodup.append hex
  · have hsub : List.Sublist
        ((questions.filter (fun q =>
          !((ex.map (fun r => r.question_id)).contains q.question_id))).map
          (fun q => q.question_id))
        (questions.map (fun q => q.question_id)) :=
      List.Sublist.map _ (List.filter_sublist questions)
    exact hq.sublist hsub
  · intro i hi hj
    obtain ⟨x, hx1, hx2⟩ := List.mem_map.mp hj
    have hcond := List.of_mem_filter hx1
    rw [hx2] at hcond
    simp only [Bool.not_eq_true'] at hcond
    have hnm : i ∉ ex.map (fun r => r.question_id) := by simpa using hcond
    exact hnm hi

/-- Witness for `joiner_no_duplicate_rows`, the spec's own example: output
table with ids 1 and 2, questions 1, 2, 3; only question 3 is appended. -/
theorem joiner_no_duplicate_rows_w :
    0 < 30 ∧
    ([q1, q2, q3].map (fun q => q.question_id)).Nodup ∧
    (([exRow 1, exRow 2].map (fun r => r.question_id)).Nodup) ∧
    (((process_questions_with_answers parser0 ansApi7 [q1, q2, q3]
        (some [exRow 1, exRow 2]) 30 3).map (fun r => r.question_id)) =
      [exRow 1, exRow 2].map (fun r => r.question_id) ++
        ([q1, q2, q3].filter (fun q =>
          !(([exRow 1, exRow 2].map (fun r => r.question_id)).contains
            q.question_id))).map (fun q => q.question_id) ∧
    (((process_questions_with_answers parser0 ansApi7 [q1, q2, q3]
        (some [exRow 1, exRow 2]) 30 3).map (fun r => r.question_id))).Nodup) :=
  ⟨by decide, by decide, by decide,
   joiner_no_duplicate_rows parser0 ansApi7 [q1, q2, q3] [exRow 1, exRow 2] 30 3
     (by decide) (by decide) (by decide)⟩


theorem fmtAnswer_ne_empty (a : AnswerData) : fmtAnswer a ≠ "" := by
  unfold fmtAnswer
  intro h
  have hl := congrArg String.length h
  simp [String.length_append] at hl
  exact absurd hl.1.1.1.1.1 (by decide)

/-- Column characterization of `buildRow` shared by the formatting theorem
and the truncation counterexample. -/
theorem buildRow_cols (parser : List Char → Option (List Char)) (m : AMap)
    (q : Question) (e : QEntry) (h : lookupA m q.question_id = some e) :
    (buildRow parser m q).accepted_answer = ((e.accepted.head?).map fmtAnswer).getD "" ∧
    [(buildRow parser m q).top_answer_1, (buildRow parser m q).top_answer_2,
      (buildRow parser m q).top_answer_3] =
      (e.others.take 3).map fmtAnswer ++ List.replicate (3 - min 3 e.others.length) "" := by
  unfold buildRow
  rw [h]
  constructor
  · cases hac : e.accepted with
    | nil => simp [hac]
    | cons a t => simp [hac]
  · rcases hos : e.others with _ | ⟨a1, _ | ⟨a2, _ | ⟨a3, os⟩⟩⟩ <;>
      simp [hos, List.replicate, List.take]

/-- C9 counterexample: with `top_n = 4`, question 7 has four non-accepted
answers available in the fetcher's result, yet the built row fills only
three `top_answer_k` columns — the hardcoded `[:3]` slice caps the columns
at three regardless of `top_n`. -/
theorem top_answers_capped_cex :
    (lookupA (fetch_answers_for_questions parser0 ansApi7 [7] 4) 7).map
        (fun e => e.others.length) = some 4 ∧
    filledTops (buildRow parser0 (fetch_answers_for_questions parser0 ansApi7 [7] 4) q7) =
      3 := by
  have hloop := fetchAnswersLoop_single parser0 ansApi7 [7] (by decide) (by decide)
    [ansA, ansB, ansC, ansD, ansE] 500 rfl
  have hlk : lookupA (fetch_answers_for_questions parser0 ansApi7 [7] 4) 7 =
      some (sortTrunc 4 ⟨accOf parser0 [ansA, ansB, ansC, ansD, ansE] 7,
        othOf parser0 [ansA, ansB, ansC, ansD, ansE] 7⟩) := by
    unfold fetch_answers_for_questions
    rw [if_neg (by decide)]
    rw [hloop, lookupA_mapVals, lookupA_groupAnswers]
    simp only [lookupA]
    rw [show (([ansA, ansB, ansC, ansD, ansE].filter
      (fun a => a.question_id == (7 : Int))).isEmpty) = false from by decide]
    simp
  have hothlen : (othOf parser0 [ansA, ansB, ansC, ansD, ansE] 7).length = 4 := by
    unfold othOf
    rw [List.length_map]
    decide
  have hlen : (sortTrunc 4 ⟨accOf parser0 [ansA, ansB, ansC, ansD, ansE] 7,
      othOf parser0 [ansA, ansB, ansC, ansD, ansE] 7⟩).others.length = 4 := by
    simp only [sortTrunc, List.length_take, length_sortDesc]
    rw [hothlen]
    decide
  constructor
  · rw [hlk]
    exact congrArg some hlen
  · obtain ⟨hacc, hcols⟩ := buildRow_cols parser0
      (fetch_answers_for_questions parser0 ansApi7 [7] 4) q7 _ hlk
    rcases hos : (sortTrunc 4 ⟨accOf parser0 [ansA, ansB, ansC, ansD, ansE] 7,
        othOf parser0 [ansA, ansB, ansC, ansD, ansE] 7⟩).others
      with _ | ⟨o1, _ | ⟨o2, _ | ⟨o3, os4⟩⟩⟩
    · rw [hos] at hlen; simp at hlen
    · rw [hos] at hlen; simp at hlen
    · rw [hos] at hlen; simp at hlen
    · rw [hos] at hcols
      simp only [List.take, List.map_cons, List.map_nil] at hcols
      have h3 : 3 - min 3 (o1 :: o2 :: o3 :: os4).length = 0 := by
        simp only [List.length_cons]
        omega
      rw [h3] at hcols
      simp only [List.replicate, List.append_nil] at hcols
      obtain ⟨h1, h2, h3c⟩ : (buildRow parser0
          (fetch_answers_for_questions parser0 ansApi7 [7] 4) q7).top_answer_1 =
            fmtAnswer o1 ∧
          (buildRow parser0 (fetch_answers_for_questions parser0 ansApi7 [7] 4)
            q7).top_answer_2 = fmtAnswer o2 ∧
          (buildRow parser0 (fetch_answers_for_questions parser0 ansApi7 [7] 4)
            q7).top_answer_3 = fmtAnswer o3 := by
        have := hcols
        simp only [List.cons.injEq] at this
        exact ⟨this.1, this.2.1, this.2.2.1⟩
      unfold filledTops
      rw [h1, h2, h3c]
      rw [if_neg (fmtAnswer_ne_empty o1), if_neg (fmtAnswer_ne_empty o2),
        if_neg (fmtAnswer_ne_empty o3)]

/-- C9 amended: for a question present in the answers map, the row formats
the first accepted answer as `[User {id} | Score: {score}]: {text}` when one
exists and leaves the column empty otherwise, and fills the `top_answer_k`
columns with the first min(3, available) others formatted the same way —
i.e. up to min(top_n, 3) columns, since `others` was already truncated to
`top_n` — leaving the remaining columns empty. -/
theorem buildRow_formats (parser : List Char → Option (List Char)) (m : AMap)
    (q : Question) (e : QEntry) (h : lookupA m q.question_id = some e) :
    (buildRow parser m q).accepted_answer = ((e.accepted.head?).map fmtAnswer).getD "" ∧
    [(buildRow parser m q).top_answer_1, (buildRow parser m q).top_answer_2,
      (buildRow parser m q).top_answer_3] =
      (e.others.take 3).map fmtAnswer ++ List.replicate (3 - min 3 e.others.length) "" :=
  buildRow_cols parser m q e h

/-- Witness for `buildRow_formats`. -/
theorem buildRow_formats_w :
    lookupA [((7 : Int),
        (⟨[⟨101, 5, "42", "a"⟩], [⟨102, 9, "43", "b"⟩]⟩ : QEntry))] q7.question_id =
      some ⟨[⟨101, 5, "42", "a"⟩], [⟨102, 9, "43", "b"⟩]⟩ ∧
    ((buildRow parser0 [((7 : Int),
        (⟨[⟨101, 5, "42", "a"⟩], [⟨102, 9, "43", "b"⟩]⟩ : QEntry))] q7).accepted_answer =
      ((([⟨101, 5, "42", "a"⟩] : List AnswerData).head?).map fmtAnswer).getD "" ∧
    [(buildRow parser0 [((7 : Int),
        (⟨[⟨101, 5, "42", "a"⟩], [⟨102, 9, "43", "b"⟩]⟩ : QEntry))] q7).top_answer_1,
     (buildRow parser0 [((7 : Int),
        (⟨[⟨101, 5, "42", "a"⟩], [⟨102, 9, "43", "b"⟩]⟩ : QEntry))] q7).top_answer_2,
     (buildRow parser0 [((7 : Int),
        (⟨[⟨101, 5, "42", "a"⟩], [⟨102, 9, "43", "b"⟩]⟩ : QEntry))] q7).top_answer_3] =
      (([⟨102, 9, "43", "b"⟩] : List AnswerData).take 3).map fmtAnswer ++
        List.replicate (3 - min 3 ([⟨102, 9, "43", "b"⟩] : List AnswerData).length) "") :=
  ⟨rfl, buildRow_formats parser0
    [((7 : Int), (⟨[⟨101, 5, "42", "a"⟩], [⟨102, 9, "43", "b"⟩]⟩ : QEntry))] q7
    ⟨[⟨101, 5, "42", "a"⟩], [⟨102, 9, "43", "b"⟩]⟩ rfl⟩

/-- C8 counterexample: an API item lacking the `question_id` key makes the
extraction raise (`KeyError`), contradicting the claim that extraction
never raises even when `question_id` is absent. -/
theorem extract_missing_id_cex :
    extractQuestion rqNoId = .error "question_id" ∧
    (extractQuestion rqNoId).toOption = none :=
  ⟨rfl, rfl⟩

/-- C8 amended: for every item that does carry a `question_id`, extraction
succeeds without raising and defaults each missing field to its
type-appropriate empty or zero (empty string for title and body, 0 for the
numeric fields, empty list — joined to the empty string — for tags). -/
theorem extract_defaults (r : RawQuestion) (i : Int) (h : r.question_id = some i) :
    extractQuestion r = .ok
      { question_id := i
        title := r.title.getD ""
        body := r.body.getD ""
        score := r.score.getD 0
        creation_date := r.creation_date.getD 0
        view_count := r.view_count.getD 0
        answer_count := r.answer_count.getD 0
        tags := String.intercalate ";" (r.tags.getD []) } := by
  unfold extractQuestion
  rw [h]

/-- Witness for `extract_defaults`, at an item with only `question_id` set. -/
theorem extract_defaults_w :
    (⟨some 9, none, none, none, none, none, none, none⟩ : RawQuestion).question_id =
      some 9 ∧
    extractQuestion ⟨some 9, none, none, none, none, none, none, none⟩ = .ok
      { question_id := 9
        title := (none : Option String).getD ""
        body := (none : Option String).getD ""
        score := (none : Option Int).getD 0
        creation_date := (none : Option Int).getD 0
        view_count := (none : Option Int).getD 0
        answer_count := (none : Option Int).getD 0
        tags := String.intercalate ";" ((none : Option (List String)).getD []) } :=
  ⟨rfl, extract_defaults ⟨some 9, none, none, none, none, none, none, none⟩ 9 rfl⟩

end PullData
